import Mathlib

/-!
# NMEA 0183 sentence assembler and GPRMC decoder

A shallow embedding of `src/nmea0183.cpp` / `src/nmea0183.hpp`.

* A `char` is modelled by its byte value, a natural number below 256.  The test
  `!(c & 0x80) && (c >= 0x20)` gives the same answer for a signed and for an
  unsigned `char`: a byte with the top bit set fails the first conjunct.
* `boost::uint8_t` members are natural numbers, reduced `% 256` where the
  source increments or xors them.
* `m_sentence` is a list of 83 bytes, written with `List.set`.
-/

namespace Nmea

/-! ## Data model (`nmea0183.hpp`) -/

/-- The states of the NMEA sentence building (`enum ParseState`). -/
inductive ParseState
  | NMEA0183_INVALID
  | NMEA0183_ADDRESS
  | NMEA0183_FIELD_DATA
  | NMEA0183_FIELD_DATA_HEX_HI
  | NMEA0183_FIELD_DATA_HEX_LO
  | NMEA0183_CHECKSUM_HI
  | NMEA0183_CHECKSUM_LO
  | NMEA0183_EOS
  | NMEA0183_ACCEPT
  deriving DecidableEq, Repr

open ParseState

/-- The private members of `class NMEA0183`. -/
structure NMEA0183 where
  m_state : ParseState
  m_update_checksum : Bool
  m_sentence : List Nat
  m_index : Nat
  m_fields : Nat
  m_checksum : Nat
  deriving DecidableEq, Repr

/-- The capacity of the sentence buffer: `sizeof(m_sentence)`, that is `82 + 1`. -/
def SENTENCE_SIZE : Nat := 82 + 1

/-- The constructor `NMEA0183::NMEA0183()`: `m_sentence()` zero-initialises the buffer. -/
def new : NMEA0183 :=
  { m_state := NMEA0183_INVALID
    m_update_checksum := false
    m_sentence := List.replicate SENTENCE_SIZE 0
    m_index := 0
    m_fields := 0
    m_checksum := 0 }

/-- The method `NMEA0183::reset()`: the buffer itself is left as it is. -/
def reset (s : NMEA0183) : NMEA0183 :=
  { s with
    m_state := NMEA0183_INVALID
    m_update_checksum := false
    m_index := 0
    m_fields := 0
    m_checksum := 0 }

/-- The helper `to_hex(uint8_t nibble)`; the argument is converted to `uint8_t` first. -/
def to_hex (nibble : Nat) : Nat :=
  let nibble := (nibble % 256) &&& 0x0f
  if nibble > 9 then nibble - 10 + 65 else nibble + 48

/-- The C library test `std::isxdigit` on a byte: `0-9`, `A-F`, `a-f`. -/
def isxdigit (c : Nat) : Bool :=
  (48 ≤ c && c ≤ 57) || (65 ≤ c && c ≤ 70) || (97 ≤ c && c ≤ 102)

/-- The first half of `NMEA0183::update` (lines 113-235): the discard of an accepted
sentence was done by the caller; this is the `if / switch` that classifies the byte.
It returns the object and the (possibly substituted) value of the local `c`. -/
def classify (s : NMEA0183) (c : Nat) : NMEA0183 × Nat :=
  if c &&& 0x80 = 0 ∧ c ≥ 0x20 then
    if c = 0x21 ∨ c = 0x24 then
      -- case '!', case '$': new sentence
      ({ s with m_index := 0, m_fields := 0, m_checksum := 0, m_state := NMEA0183_ADDRESS }, c)
    else if c = 0x2A then
      -- case '*'
      if s.m_state = NMEA0183_FIELD_DATA ∨ s.m_state = NMEA0183_ADDRESS then
        ({ s with m_update_checksum := false, m_state := NMEA0183_CHECKSUM_HI }, c)
      else
        (reset s, c)
    else if c = 0x2C then
      -- case ','
      if s.m_state = NMEA0183_FIELD_DATA ∨ s.m_state = NMEA0183_ADDRESS then
        ({ s with m_state := NMEA0183_FIELD_DATA, m_fields := (s.m_fields + 1) % 256 }, c)
      else
        (reset s, c)
    else if c = 0x5C ∨ c = 0x7E ∨ c = 0x7F then
      -- case '\\', case '~', case 0x7f: reserved for future use
      (reset s, c)
    else
      match s.m_state with
      | NMEA0183_ADDRESS =>
        if (c ≥ 65 ∧ c ≤ 90) ∨ (c ≥ 48 ∧ c ≤ 57) then
          ({ s with m_update_checksum := true }, c)
        else
          (reset s, c)
      | NMEA0183_FIELD_DATA_HEX_HI =>
        if isxdigit c then
          ({ s with m_state := NMEA0183_FIELD_DATA_HEX_LO }, c)
        else
          (reset s, c)
      | NMEA0183_FIELD_DATA_HEX_LO =>
        if isxdigit c then
          ({ s with m_state := NMEA0183_FIELD_DATA }, c)
        else
          (reset s, c)
      | NMEA0183_CHECKSUM_HI =>
        if c = to_hex (s.m_checksum >>> 4) then
          ({ s with m_state := NMEA0183_CHECKSUM_LO }, c)
        else
          (reset s, c)
      | NMEA0183_CHECKSUM_LO =>
        if c = to_hex (s.m_checksum &&& 0x0f) then
          ({ s with m_state := NMEA0183_EOS }, c)
        else
          (reset s, c)
      | NMEA0183_INVALID => (s, c)
      | _ => (s, c)
  else if s.m_state = NMEA0183_EOS ∧ (c = 0x0a ∨ c = 0x0d) then
    -- NULL terminate
    ({ s with m_state := NMEA0183_ACCEPT }, 0)
  else
    (reset s, c)

/-- The second half of `NMEA0183::update` (lines 237-249): append the byte, update the
checksum when the flag is on, and abandon a sentence that fills the buffer. -/
def store (s : NMEA0183) (c : Nat) : NMEA0183 :=
  if s.m_state ≠ NMEA0183_INVALID then
    let s1 := { s with m_sentence := s.m_sentence.set s.m_index c, m_index := (s.m_index + 1) % 256 }
    let s2 := if s1.m_update_checksum then { s1 with m_checksum := (s1.m_checksum ^^^ c) % 256 } else s1
    if s2.m_index = SENTENCE_SIZE - 1 ∧ s2.m_state ≠ NMEA0183_ACCEPT then reset s2 else s2
  else
    s

/-- The first statement of `NMEA0183::update`: discard a previously accepted sentence. -/
def discard (s : NMEA0183) : NMEA0183 :=
  if s.m_state = NMEA0183_ACCEPT then reset s else s

/-- The method `NMEA0183::update(char c)`: the new object and the returned `bool`. -/
def update (s : NMEA0183) (c : Nat) : NMEA0183 × Bool :=
  let p := classify (discard s) c
  let s2 := store p.1 p.2
  (s2, decide (s2.m_state = NMEA0183_ACCEPT))

/-- The index of the write `m_sentence[m_index] = c` that `update s c` performs, when it
performs one (line 239 is reached exactly when the state after classification is not
`NMEA0183_INVALID`). -/
def writeIndex (s : NMEA0183) (c : Nat) : Option Nat :=
  let p := classify (discard s) c
  if p.1.m_state ≠ NMEA0183_INVALID then some p.1.m_index else none

/-- The method `NMEA0183::getState()`. -/
def getState (s : NMEA0183) : ParseState := s.m_state

/-- The method `NMEA0183::getFields()`. -/
def getFields (s : NMEA0183) : Nat := s.m_fields

/-- The NUL-terminated string that starts at the beginning of a `char` array. -/
def cstring (buf : List Nat) : List Nat := buf.takeWhile (fun b => b != 0)

/-- The method `NMEA0183::getSentence()`: `none` is `NULL`, otherwise the string that the
returned pointer designates. -/
def getSentence (s : NMEA0183) : Option (List Nat) :=
  if s.m_state = NMEA0183_ACCEPT then some (cstring s.m_sentence) else none

/-! ## Feeding byte sequences -/

/-- The object after `update` was called on each byte of `bs` in turn. -/
def feed (s : NMEA0183) : List Nat → NMEA0183
  | [] => s
  | c :: cs => feed (update s c).1 cs

/-- The values returned by `update` on each byte of `bs` in turn. -/
def returns (s : NMEA0183) : List Nat → List Bool
  | [] => []
  | c :: cs => (update s c).2 :: returns (update s c).1 cs

/-- The bytes of a string literal. -/
def bytes (str : String) : List Nat := str.toList.map Char.toNat

/-- One call on the public interface that changes the object. -/
inductive Call
  | update (c : Nat)
  | reset
  deriving DecidableEq, Repr

/-- The object after one call. -/
def call (s : NMEA0183) : Call → NMEA0183
  | Call.update c => (update s c).1
  | Call.reset => reset s

/-- The object after a sequence of calls. -/
def run (s : NMEA0183) : List Call → NMEA0183
  | [] => s
  | k :: ks => run (call s k) ks

/-! ## The sentence format, as the specification words it -/

/-- A byte value, as opposed to an arbitrary natural number. -/
def isByte (c : Nat) : Prop := c < 256

instance : DecidablePred isByte := fun c => inferInstanceAs (Decidable (c < 256))

/-- A start delimiter, `$` or `!`. -/
def isStart (c : Nat) : Prop := c = 0x24 ∨ c = 0x21

instance : DecidablePred isStart := fun c => inferInstanceAs (Decidable (c = 0x24 ∨ c = 0x21))

/-- An address byte, one of `[A-Z0-9]`. -/
def isAddressByte (c : Nat) : Prop := (65 ≤ c ∧ c ≤ 90) ∨ (48 ≤ c ∧ c ≤ 57)

instance : DecidablePred isAddressByte :=
  fun c => inferInstanceAs (Decidable ((65 ≤ c ∧ c ≤ 90) ∨ (48 ≤ c ∧ c ≤ 57)))

/-- A field byte: `0x20..0x7E` other than `!`, `$`, `*`, `,`, `\` and `~`. -/
def isFieldByte (c : Nat) : Prop :=
  0x20 ≤ c ∧ c ≤ 0x7E ∧ c ≠ 0x21 ∧ c ≠ 0x24 ∧ c ≠ 0x2A ∧ c ≠ 0x2C ∧ c ≠ 0x5C ∧ c ≠ 0x7E

instance : DecidablePred isFieldByte :=
  fun c => inferInstanceAs (Decidable
    (0x20 ≤ c ∧ c ≤ 0x7E ∧ c ≠ 0x21 ∧ c ≠ 0x24 ∧ c ≠ 0x2A ∧ c ≠ 0x2C ∧ c ≠ 0x5C ∧ c ≠ 0x7E))

/-- A sentence terminator byte, CR or LF. -/
def isTerminator (c : Nat) : Prop := c = 0x0D ∨ c = 0x0A

instance : DecidablePred isTerminator :=
  fun c => inferInstanceAs (Decidable (c = 0x0D ∨ c = 0x0A))

/-- The uppercase hex digit of a nibble: `0`-`9` for 0-9 and `A`-`F` for 10-15. -/
def upperHexDigit (n : Nat) : Nat :=
  [48, 49, 50, 51, 52, 53, 54, 55, 56, 57, 65, 66, 67, 68, 69, 70].getD n 0

/-- An uppercase hex digit, one of `[0-9A-F]`. -/
def isUpperHex (c : Nat) : Prop := (48 ≤ c ∧ c ≤ 57) ∨ (65 ≤ c ∧ c ≤ 70)

instance : DecidablePred isUpperHex :=
  fun c => inferInstanceAs (Decidable ((48 ≤ c ∧ c ≤ 57) ∨ (65 ≤ c ∧ c ≤ 70)))

/-- The XOR of all bytes of a list. -/
def xorAll (bs : List Nat) : Nat := bs.foldl (fun x b => x ^^^ b) 0

/-- The bytes of a list of fields on the wire: each field is introduced by `,`. -/
def fieldBytes : List (List Nat) → List Nat
  | [] => []
  | f :: fs => 0x2C :: f ++ fieldBytes fs

/-- The parts of a sentence: start delimiter, address and fields. -/
structure Sentence where
  start : Nat
  address : List Nat
  fields : List (List Nat)
  deriving DecidableEq, Repr

/-- The bytes strictly between the start delimiter and `*`. -/
def Sentence.content (w : Sentence) : List Nat := w.address ++ fieldBytes w.fields

/-- The checksum of a sentence: the XOR of every byte strictly between the start
delimiter and `*`. -/
def Sentence.checksum (w : Sentence) : Nat := xorAll w.content

/-- The sentence body: start delimiter, address, fields, `*`. -/
def Sentence.body (w : Sentence) : List Nat := w.start :: w.content ++ [0x2A]

/-- The two uppercase hex checksum digits of a sentence, high nibble first. -/
def Sentence.digits (w : Sentence) : List Nat :=
  [upperHexDigit (w.checksum / 16), upperHexDigit (w.checksum % 16)]

/-- The bytes of a sentence from the start delimiter through the second checksum digit. -/
def Sentence.wire (w : Sentence) : List Nat := w.body ++ w.digits

/-- A well-formed sentence: a start delimiter, one or more address bytes, and fields made
of field bytes. -/
def Sentence.WellFormed (w : Sentence) : Prop :=
  isStart w.start ∧ w.address ≠ [] ∧ (∀ a ∈ w.address, isAddressByte a) ∧
    ∀ f ∈ w.fields, ∀ b ∈ f, isFieldByte b

instance : DecidablePred Sentence.WellFormed :=
  fun w => inferInstanceAs (Decidable
    (isStart w.start ∧ w.address ≠ [] ∧ (∀ a ∈ w.address, isAddressByte a) ∧
      ∀ f ∈ w.fields, ∀ b ∈ f, isFieldByte b))

/-- The end of a sentence on the wire: CR, LF or CR LF. -/
def isEnding (e : List Nat) : Prop := e = [0x0D] ∨ e = [0x0A] ∨ e = [0x0D, 0x0A]

instance : DecidablePred isEnding :=
  fun e => inferInstanceAs (Decidable (e = [0x0D] ∨ e = [0x0A] ∨ e = [0x0D, 0x0A]))

/-- The input bytes from the most recent start delimiter (inclusive) to the end of the
input; empty when the input has no start delimiter. -/
def sinceStart (inp : List Nat) : List Nat :=
  inp.foldl (fun cur b => if isStart b then [b] else if cur = [] then [] else cur ++ [b]) []

/-- The wire grammar `('$'|'!') ADDRESS (',' FIELD)* '*' HEXHI HEXLO (CR|LF)` with a
non-empty address and the terminator right after the second hex digit. -/
def WireFormat (bs : List Nat) : Prop :=
  ∃ d addr fields hi lo t,
    bs = d :: addr ++ fieldBytes fields ++ [0x2A, hi, lo, t] ∧
    isStart d ∧ addr ≠ [] ∧ (∀ a ∈ addr, isAddressByte a) ∧
    (∀ f ∈ fields, ∀ b ∈ f, isFieldByte b) ∧
    isUpperHex hi ∧ isUpperHex lo ∧ isTerminator t

/-- The grammar that `update` enforces: as `WireFormat`, but the address may be empty and
field bytes may stand between the second hex digit and the terminator. -/
def WireFormatLoose (bs : List Nat) : Prop :=
  ∃ d addr fields hi lo trail t,
    bs = d :: addr ++ fieldBytes fields ++ [0x2A, hi, lo] ++ trail ++ [t] ∧
    isStart d ∧ (∀ a ∈ addr, isAddressByte a) ∧
    (∀ f ∈ fields, ∀ b ∈ f, isFieldByte b) ∧
    isUpperHex hi ∧ isUpperHex lo ∧ (∀ b ∈ trail, isFieldByte b) ∧ isTerminator t

/-- The string that `getSentence` holds after an acceptance, as `update` builds it: the
start delimiter, the address, the fields, then `*`, two uppercase hex digits and any
field bytes that came before the terminator. -/
def SentenceText (t : List Nat) : Prop :=
  ∃ d addr fields hi lo trail,
    t = d :: addr ++ fieldBytes fields ++ [0x2A, hi, lo] ++ trail ∧
    isStart d ∧ (∀ a ∈ addr, isAddressByte a) ∧
    (∀ f ∈ fields, ∀ b ∈ f, isFieldByte b) ∧
    isUpperHex hi ∧ isUpperHex lo ∧ (∀ b ∈ trail, isFieldByte b)

/-! ## The GPRMC decoder -/

/-- The call `boost::split(entries, input, boost::is_any_of(sep))` with one separator
character: the input is cut at every separator and empty tokens are kept. -/
def split (sep : Char) : List Char → List (List Char)
  | [] => [[]]
  | c :: cs =>
    if c = sep then [] :: split sep cs
    else
      match split sep cs with
      | [] => [[c]]
      | f :: fs => (c :: f) :: fs

/-- The `while` loop of `to_double` (lines 61-65), bounded by the length of the integer
part: it moves up to two trailing characters of `whole` to the front of `minutes`. -/
def takeMinutes : Nat → List Char → List Char → List Char × List Char
  | 0, minutes, whole => (minutes, whole)
  | fuel + 1, minutes, whole =>
    if minutes.length ≠ 2 ∧ whole.length > 1 then
      match whole.getLast? with
      | some c => takeMinutes fuel (c :: minutes) whole.dropLast
      | none => (minutes, whole)
    else (minutes, whole)

/-- The `for` loop of `to_double` (lines 70-74) on an `int`: `none` when the product
leaves the range of `int`. -/
def dividorLoop : Nat → Int → Option Int
  | 0, d => some d
  | n + 1, d => if d * 10 > 2147483647 then none else dividorLoop n (d * 10)

/-- The helper `to_double`, over the rationals.  The call
`boost::lexical_cast<double>` is a parameter; `none` stands for a thrown exception. -/
def to_double (lexical_cast : List Char → Option ℚ) (p_point p_multiplier : List Char) :
    Option ℚ :=
  match split '.' p_point with
  | [whole, frac] =>
    let r := takeMinutes whole.length [] whole
    let minutes := r.1
    let whole := r.2
    match lexical_cast whole, lexical_cast minutes, lexical_cast frac with
    | some upper, some minutes_double, some decimals =>
      match dividorLoop (frac.length - 1) 10 with
      | some dividor =>
        let decimals := decimals / dividor
        let minutes_double := (minutes_double + decimals) / 60
        if p_multiplier = ['S'] ∨ p_multiplier = ['W'] then
          some ((upper + minutes_double) * -1)
        else
          some (upper + minutes_double)
      | none => none
    | _, _, _ => none
  | _ => some 0

/-- The method `NMEA0183::get_gprmc_lat_long`: the returned `bool` and the values of
`p_lat` and `p_long` after the call; `none` stands for a thrown exception. -/
def get_gprmc_lat_long (lexical_cast : List Char → Option ℚ) (p_nmea_sentence : List Char)
    (p_lat p_long : ℚ) : Option (Bool × ℚ × ℚ) :=
  let entries := split ',' p_nmea_sentence
  if entries.isEmpty then some (false, p_lat, p_long)
  else if entries.head? ≠ some "$GPRMC".toList ∨ entries.length ≠ 13 then
    -- only care about gprmc...
    some (false, p_lat, p_long)
  else if entries.get? 2 ≠ some ['A'] then some (false, p_lat, p_long)
  else
    match to_double lexical_cast (entries.getD 3 []) (entries.getD 4 []) with
    | none => none
    | some lat =>
      match to_double lexical_cast (entries.getD 5 []) (entries.getD 6 []) with
      | none => none
      | some long => some (true, lat, long)

/-- The number that a string of decimal digits writes. -/
def decimalValue (s : List Char) : Nat :=
  s.foldl (fun n c => 10 * n + (c.toNat - 48)) 0

/-- A non-empty string of decimal digits. -/
def isDigits (s : List Char) : Prop := s ≠ [] ∧ ∀ c ∈ s, c.isDigit = true

instance : DecidablePred isDigits :=
  fun s => inferInstanceAs (Decidable (s ≠ [] ∧ ∀ c ∈ s, c.isDigit = true))

/-- What the proofs ask of `boost::lexical_cast<double>`: on a non-empty string of decimal
digits it returns the number written (read in exact arithmetic). -/
def ReadsDecimal (lexical_cast : List Char → Option ℚ) : Prop :=
  ∀ s, isDigits s → lexical_cast s = some (decimalValue s : ℚ)

/-- One reading of `boost::lexical_cast<double>`: the number written by a non-empty string
of decimal digits, and a throw on the empty string and on any other string. -/
def digitCast (s : List Char) : Option ℚ :=
  if isDigits s then some (decimalValue s : ℚ) else none

/-! ## Vocabulary of the proofs -/

/-- The transitions of `update` that keep a sentence in progress, on the state alone:
`Arc st c st1` says that byte `c` may lead from state `st` to state `st1`. -/
def Arc (st : ParseState) (c : Nat) (st1 : ParseState) : Prop :=
  match st, st1 with
  | NMEA0183_ADDRESS, NMEA0183_ADDRESS => isAddressByte c
  | NMEA0183_ADDRESS, NMEA0183_FIELD_DATA => c = 0x2C
  | NMEA0183_FIELD_DATA, NMEA0183_FIELD_DATA => c = 0x2C ∨ isFieldByte c
  | NMEA0183_ADDRESS, NMEA0183_CHECKSUM_HI => c = 0x2A
  | NMEA0183_FIELD_DATA, NMEA0183_CHECKSUM_HI => c = 0x2A
  | NMEA0183_CHECKSUM_HI, NMEA0183_CHECKSUM_LO => isUpperHex c
  | NMEA0183_CHECKSUM_LO, NMEA0183_EOS => isUpperHex c
  | NMEA0183_EOS, NMEA0183_EOS => isFieldByte c
  | NMEA0183_EOS, NMEA0183_ACCEPT => isTerminator c
  | _, _ => False

/-- The byte sequences that lead from a start delimiter to a state along `Arc`. -/
inductive Shape : ParseState → List Nat → Prop
  | start {d : Nat} : isStart d → Shape NMEA0183_ADDRESS [d]
  | snoc {st st1 : ParseState} {l : List Nat} {c : Nat} :
      Shape st l → Arc st c st1 → Shape st1 (l ++ [c])

/-- The parts of a sentence in progress are valid: a start delimiter, address bytes and
field bytes (the address may be empty). -/
def PartsOk (d : Nat) (addr : List Nat) (fields : List (List Nat)) : Prop :=
  isStart d ∧ (∀ a ∈ addr, isAddressByte a) ∧ ∀ f ∈ fields, ∀ b ∈ f, isFieldByte b

/-- What `Shape st l` says about `l` in terms of address and fields, state by state. -/
def ShapeDesc (st : ParseState) (l : List Nat) : Prop :=
  match st with
  | NMEA0183_ADDRESS => ∃ d addr, l = d :: addr ∧ PartsOk d addr []
  | NMEA0183_FIELD_DATA =>
    ∃ d addr fields last,
      l = d :: addr ++ fieldBytes (fields ++ [last]) ∧ PartsOk d addr (fields ++ [last])
  | NMEA0183_CHECKSUM_HI =>
    ∃ d addr fields, l = d :: addr ++ fieldBytes fields ++ [0x2A] ∧ PartsOk d addr fields
  | NMEA0183_CHECKSUM_LO =>
    ∃ d addr fields hi,
      l = d :: addr ++ fieldBytes fields ++ [0x2A, hi] ∧ PartsOk d addr fields ∧ isUpperHex hi
  | NMEA0183_EOS => SentenceText l
  | NMEA0183_ACCEPT => WireFormatLoose l
  | _ => False

/-- The invariant that ties the object to the input `inp` consumed since construction:
outside `NMEA0183_INVALID` the bytes since the most recent start delimiter follow
`Shape` and are what the buffer holds below `m_index` (with NUL for the terminator). -/
def Inv (inp : List Nat) (s : NMEA0183) : Prop :=
  s.m_sentence.length = SENTENCE_SIZE ∧
  (s.m_state = NMEA0183_INVALID ∨
    (Shape s.m_state (sinceStart inp) ∧ s.m_index = (sinceStart inp).length ∧
      (s.m_state ≠ NMEA0183_ACCEPT →
        s.m_index ≤ 81 ∧ s.m_sentence.take s.m_index = sinceStart inp) ∧
      (s.m_state = NMEA0183_ACCEPT →
        s.m_index ≤ 82 ∧ s.m_sentence.take s.m_index = (sinceStart inp).dropLast ++ [0])))

/-- The transitions of `update` on a sentence whose address was entered with the
checksum flag off, with their effect on the flag and on the checksum:
`LiveArc st f cs c st1 f1 cs1`. -/
inductive LiveArc : ParseState → Bool → Nat → Nat → ParseState → Bool → Nat → Prop
  | address {f : Bool} {cs c : Nat} : isAddressByte c →
      LiveArc NMEA0183_ADDRESS f cs c NMEA0183_ADDRESS true ((cs ^^^ c) % 256)
  | commaA {cs : Nat} :
      LiveArc NMEA0183_ADDRESS true cs 0x2C NMEA0183_FIELD_DATA true ((cs ^^^ 0x2C) % 256)
  | commaF {cs : Nat} :
      LiveArc NMEA0183_FIELD_DATA true cs 0x2C NMEA0183_FIELD_DATA true ((cs ^^^ 0x2C) % 256)
  | field {cs c : Nat} : isFieldByte c →
      LiveArc NMEA0183_FIELD_DATA true cs c NMEA0183_FIELD_DATA true ((cs ^^^ c) % 256)
  | starA {f : Bool} {cs : Nat} :
      LiveArc NMEA0183_ADDRESS f cs 0x2A NMEA0183_CHECKSUM_HI false cs
  | starF {f : Bool} {cs : Nat} :
      LiveArc NMEA0183_FIELD_DATA f cs 0x2A NMEA0183_CHECKSUM_HI false cs
  | hi {cs : Nat} :
      LiveArc NMEA0183_CHECKSUM_HI false cs (to_hex (cs >>> 4)) NMEA0183_CHECKSUM_LO false cs
  | lo {cs : Nat} :
      LiveArc NMEA0183_CHECKSUM_LO false cs (to_hex (cs &&& 0x0f)) NMEA0183_EOS false cs

/-- A sequence of `LiveArc` transitions. -/
inductive LivePath : ParseState → Bool → Nat → List Nat → ParseState → Bool → Nat → Prop
  | nil {st : ParseState} {f : Bool} {cs : Nat} : LivePath st f cs [] st f cs
  | cons {st st1 st2 : ParseState} {f f1 f2 : Bool} {cs cs1 cs2 c : Nat} {bs : List Nat} :
      LiveArc st f cs c st1 f1 cs1 → LivePath st1 f1 cs1 bs st2 f2 cs2 →
      LivePath st f cs (c :: bs) st2 f2 cs2

/-- The object while it follows a sentence whose bytes so far are `cur`: either the
sentence is in progress, in state `st` with flag `f` and checksum `cs`, or it reached
82 bytes and was abandoned. -/
def Track (s : NMEA0183) (st : ParseState) (f : Bool) (cur : List Nat) (cs : Nat) : Prop :=
  s.m_sentence.length = SENTENCE_SIZE ∧
  ((cur.length < 82 ∧ s.m_state = st ∧ s.m_update_checksum = f ∧ s.m_index = cur.length ∧
      s.m_sentence.take cur.length = cur ∧ s.m_checksum = cs) ∨
    (82 ≤ cur.length ∧ s.m_state = NMEA0183_INVALID ∧ s.m_update_checksum = false))

/-! ## Bytes and hex digits -/

set_option maxRecDepth 100000 in
theorem land_128_iff : ∀ c, c < 256 → (c &&& 128 = 0 ↔ c < 128) := by decide

theorem land_128_of_lt {c : Nat} (h : c < 128) : c &&& 128 = 0 :=
  (land_128_iff c (by omega)).2 h

set_option maxRecDepth 100000 in
theorem to_hex_table : ∀ n, n < 16 → to_hex n = upperHexDigit n ∧ isUpperHex (to_hex n) := by
  decide

set_option maxRecDepth 100000 in
theorem to_hex_checksum : ∀ cs, cs < 256 →
    to_hex (cs >>> 4) = upperHexDigit (cs / 16) ∧ to_hex (cs &&& 0x0f) = upperHexDigit (cs % 16) := by
  decide

theorem to_hex_mod (n : Nat) : to_hex n = to_hex ((n % 256) &&& 15) := by
  have h : (n % 256) &&& 15 ≤ 15 := Nat.and_le_right
  have h2 : ((n % 256) &&& 15) % 256 = (n % 256) &&& 15 := by omega
  simp [to_hex, h2, Nat.and_assoc]

theorem to_hex_upper (n : Nat) : isUpperHex (to_hex n) := by
  rw [to_hex_mod]
  have h : (n % 256) &&& 15 ≤ 15 := Nat.and_le_right
  exact (to_hex_table _ (by omega)).2


/-! ## General facts about one call of `update` -/

theorem update_snd (s : NMEA0183) (c : Nat) :
    (update s c).2 = decide ((update s c).1.m_state = NMEA0183_ACCEPT) := rfl

theorem update_false_iff (s : NMEA0183) (c : Nat) :
    (update s c).2 = false ↔ (update s c).1.m_state ≠ NMEA0183_ACCEPT := by
  rw [update_snd]; simp

theorem update_fst (s : NMEA0183) (c : Nat) :
    (update s c).1 = store (classify (discard s) c).1 (classify (discard s) c).2 := rfl

theorem printable_iff {c : Nat} (hc : c < 256) :
    (c &&& 0x80 = 0 ∧ c ≥ 0x20) ↔ (32 ≤ c ∧ c < 128) := by
  have := land_128_iff c hc
  constructor
  · rintro ⟨h1, h2⟩; exact ⟨h2, this.1 h1⟩
  · rintro ⟨h1, h2⟩; exact ⟨this.2 h2, h1⟩

theorem classify_sentence (s : NMEA0183) (c : Nat) :
    (classify s c).1.m_sentence = s.m_sentence := by
  obtain ⟨st, f, buf, i, n, cs⟩ := s
  cases st <;> simp only [classify, reset] <;> split_ifs <;> simp

theorem store_length (s : NMEA0183) (c : Nat) :
    (store s c).m_sentence.length = s.m_sentence.length := by
  simp only [store, reset]; split_ifs <;> simp

theorem discard_sentence (s : NMEA0183) : (discard s).m_sentence = s.m_sentence := by
  simp only [discard, reset]; split_ifs <;> simp

theorem update_length (s : NMEA0183) (c : Nat) :
    (update s c).1.m_sentence.length = s.m_sentence.length := by
  rw [update_fst, store_length, classify_sentence, discard_sentence]

theorem classify_arc (s : NMEA0183) (c : Nat) (hc : c < 256)
    (h1 : s.m_state ≠ NMEA0183_FIELD_DATA_HEX_HI) (h2 : s.m_state ≠ NMEA0183_FIELD_DATA_HEX_LO)
    (h3 : s.m_state ≠ NMEA0183_ACCEPT) :
    (classify s c).1.m_state = NMEA0183_INVALID ∨
    (isStart c ∧ (classify s c).1.m_state = NMEA0183_ADDRESS ∧ (classify s c).1.m_index = 0 ∧
      (classify s c).2 = c) ∨
    (¬ isStart c ∧ Arc s.m_state c (classify s c).1.m_state ∧
      (classify s c).1.m_index = s.m_index ∧
      (classify s c).2 = if (classify s c).1.m_state = NMEA0183_ACCEPT then 0 else c) := by
  obtain ⟨st, f, buf, i, n, cs⟩ := s
  have hp := printable_iff hc
  simp only [Nat.reduceAdd] at hp
  generalize hq : classify _ c = q
  cases st <;>
    simp only [classify, reset, hp, reduceCtorEq, or_self, or_false, false_or, or_true, true_or,
      false_and, true_and, if_false, if_true] at hq <;>
    simp only [ne_eq, not_true_eq_false] at h1 h2 h3 <;> clear hp <;>
    split_ifs at hq <;> subst hq <;>
    simp only [Arc, isStart, isAddressByte, isFieldByte, isTerminator, if_true, if_false,
      reduceCtorEq] <;>
    first
    | (simp; done)
    | omega
    | (simp; omega)
    | (rename_i h; subst h; simp [to_hex_upper]; omega)


theorem classify_index_le (s : NMEA0183) (c : Nat) : (classify s c).1.m_index ≤ s.m_index := by
  obtain ⟨st, f, buf, i, n, cs⟩ := s
  cases st <;> simp only [classify, reset] <;> split_ifs <;> simp

theorem store_invalid (s : NMEA0183) (c : Nat) (hs : s.m_state = NMEA0183_INVALID) :
    store s c = s := by
  simp [store, hs]

theorem store_live (s : NMEA0183) (c : Nat) (hs : s.m_state ≠ NMEA0183_INVALID)
    (hi : s.m_index + 1 < 82 ∨ (s.m_state = NMEA0183_ACCEPT ∧ s.m_index + 1 ≤ 82)) :
    store s c =
      { m_state := s.m_state, m_update_checksum := s.m_update_checksum,
        m_sentence := s.m_sentence.set s.m_index c, m_index := s.m_index + 1,
        m_fields := s.m_fields,
        m_checksum := if s.m_update_checksum then (s.m_checksum ^^^ c) % 256 else s.m_checksum } := by
  obtain ⟨st, f, buf, i, n, cs⟩ := s
  simp only at hs hi
  have hm : (i + 1) % 256 = i + 1 := by omega
  have h82 : ¬ (i + 1 = 82 ∧ ¬ st = NMEA0183_ACCEPT) := by
    rintro ⟨h1, h2⟩
    rcases hi with h | ⟨h, _⟩
    · omega
    · exact h2 h
  cases f <;> simp [store, hs, hm, SENTENCE_SIZE] <;>
    (intro h1 h2; exact absurd ⟨by omega, h2⟩ h82)

theorem store_overflow (s : NMEA0183) (c : Nat) (hs : s.m_state ≠ NMEA0183_INVALID)
    (ha : s.m_state ≠ NMEA0183_ACCEPT) (hi : s.m_index + 1 = 82) :
    (store s c).m_state = NMEA0183_INVALID ∧ (store s c).m_update_checksum = false ∧
      (store s c).m_sentence.length = s.m_sentence.length := by
  obtain ⟨st, f, buf, i, n, cs⟩ := s
  simp only at hs hi ha
  have hm : (i + 1) % 256 = i + 1 := by omega
  cases f <;> simp [store, hs, hm, SENTENCE_SIZE, hi, ha, reset]



theorem discard_state (s : NMEA0183) :
    (discard s).m_state ≠ NMEA0183_ACCEPT ∧
    (s.m_state = NMEA0183_ACCEPT →
      (discard s).m_state = NMEA0183_INVALID ∧ (discard s).m_update_checksum = false) ∧
    (s.m_state ≠ NMEA0183_ACCEPT → discard s = s) := by
  by_cases h : s.m_state = NMEA0183_ACCEPT <;> simp [discard, h, reset]

theorem update_arc (s : NMEA0183) (c : Nat) (hc : c < 256)
    (h1 : s.m_state ≠ NMEA0183_FIELD_DATA_HEX_HI) (h2 : s.m_state ≠ NMEA0183_FIELD_DATA_HEX_LO)
    (hi : s.m_state ≠ NMEA0183_ACCEPT → s.m_state ≠ NMEA0183_INVALID → s.m_index ≤ 81) :
    (update s c).1.m_state = NMEA0183_INVALID ∨
    (isStart c ∧ (update s c).1.m_state = NMEA0183_ADDRESS ∧ (update s c).1.m_index = 1 ∧
      (update s c).1.m_sentence = s.m_sentence.set 0 c) ∨
    (¬ isStart c ∧ s.m_state ≠ NMEA0183_ACCEPT ∧ Arc s.m_state c (update s c).1.m_state ∧
      (update s c).1.m_index = s.m_index + 1 ∧
      (update s c).1.m_sentence =
        s.m_sentence.set s.m_index (if (update s c).1.m_state = NMEA0183_ACCEPT then 0 else c) ∧
      ((update s c).1.m_state ≠ NMEA0183_ACCEPT → s.m_index + 1 ≤ 81)) := by
  rw [update_fst]
  obtain ⟨hd1, hd2, hd3⟩ := discard_state s
  have hdb : (discard s).m_sentence = s.m_sentence := discard_sentence s
  have hx1 : (discard s).m_state ≠ NMEA0183_FIELD_DATA_HEX_HI := by
    by_cases ha : s.m_state = NMEA0183_ACCEPT
    · rw [(hd2 ha).1]; simp
    · rw [hd3 ha]; exact h1
  have hx2 : (discard s).m_state ≠ NMEA0183_FIELD_DATA_HEX_LO := by
    by_cases ha : s.m_state = NMEA0183_ACCEPT
    · rw [(hd2 ha).1]; simp
    · rw [hd3 ha]; exact h2
  rcases classify_arc (discard s) c hc hx1 hx2 hd1 with h | ⟨hst, h, hidx, hc2⟩ | ⟨hst, h, hidx, hc2⟩
  · left; rw [store_invalid _ _ h]; exact h
  · right; left
    rw [store_live _ _ (by rw [h]; simp) (Or.inl (by omega))]
    exact ⟨hst, h, by simp [hidx], by simp [hidx, hc2, classify_sentence, hdb]⟩
  · have ha : s.m_state ≠ NMEA0183_ACCEPT := by
      intro ha; rw [(hd2 ha).1] at h; simp [Arc] at h
    rw [hd3 ha] at h hidx hc2 ⊢
    have hinv : s.m_state ≠ NMEA0183_INVALID := by
      intro h0; rw [h0] at h; simp [Arc] at h
    have hle := hi ha hinv
    by_cases hq : (classify s c).1.m_state = NMEA0183_INVALID
    · left; rw [store_invalid _ _ hq]; exact hq
    · by_cases hacc : (classify s c).1.m_state = NMEA0183_ACCEPT
      · right; right
        rw [store_live _ _ hq (Or.inr ⟨hacc, by omega⟩)]
        refine ⟨hst, ha, h, by simp [hidx], ?_, ?_⟩
        · simp [hidx, hc2, classify_sentence, hacc]
        · intro h9; exact absurd hacc h9
      · by_cases h82 : s.m_index + 1 = 82
        · left; exact (store_overflow _ _ hq hacc (by omega)).1
        · right; right
          rw [store_live _ _ hq (Or.inl (by omega))]
          refine ⟨hst, ha, h, by simp [hidx], ?_, ?_⟩
          · simp [hidx, hc2, classify_sentence, hacc]
          · intro _; omega


/-! ## The invariant `Inv` -/

theorem sinceStart_snoc (inp : List Nat) (c : Nat) :
    sinceStart (inp ++ [c]) =
      if isStart c then [c] else if sinceStart inp = [] then [] else sinceStart inp ++ [c] := by
  simp [sinceStart, List.foldl_append]

theorem take_set_succ (l : List Nat) (i c : Nat) (h : i < l.length) :
    (l.set i c).take (i + 1) = l.take i ++ [c] := by
  induction l generalizing i with
  | nil => simp at h
  | cons a l ih =>
    cases i with
    | zero => simp
    | succ i => simp at h; simp [ih i h]

theorem shape_facts {st : ParseState} {l : List Nat} (h : Shape st l) :
    l ≠ [] ∧ st ≠ NMEA0183_INVALID ∧ st ≠ NMEA0183_FIELD_DATA_HEX_HI ∧
      st ≠ NMEA0183_FIELD_DATA_HEX_LO := by
  cases h with
  | start hd => simp
  | snoc hs ha =>
    rename_i st0 l0 c
    refine ⟨by simp, ?_, ?_, ?_⟩ <;> (intro h0; subst h0; cases st0 <;> simp [Arc] at ha)

theorem inv_new : Inv [] new := by
  refine ⟨?_, Or.inl rfl⟩
  simp [new, SENTENCE_SIZE]

theorem inv_update (inp : List Nat) (s : NMEA0183) (c : Nat) (hc : c < 256) (h : Inv inp s) :
    Inv (inp ++ [c]) (update s c).1 := by
  obtain ⟨hlen, hcase⟩ := h
  have hlen2 : (update s c).1.m_sentence.length = SENTENCE_SIZE := by
    rw [update_length]; exact hlen
  refine ⟨hlen2, ?_⟩
  have hx : s.m_state ≠ NMEA0183_FIELD_DATA_HEX_HI ∧ s.m_state ≠ NMEA0183_FIELD_DATA_HEX_LO := by
    rcases hcase with h0 | ⟨hsh, _⟩
    · simp [h0]
    · exact ⟨(shape_facts hsh).2.2.1, (shape_facts hsh).2.2.2⟩
  have hidx : s.m_state ≠ NMEA0183_ACCEPT → s.m_state ≠ NMEA0183_INVALID → s.m_index ≤ 81 := by
    intro ha hi
    rcases hcase with h0 | ⟨_, _, h3, _⟩
    · exact absurd h0 hi
    · exact (h3 ha).1
  rcases update_arc s c hc hx.1 hx.2 hidx with h0 | ⟨hst, h1, h2, h3⟩ | ⟨hst, ha, harc, h2, h3, h4⟩
  · exact Or.inl h0
  · right
    have hss : sinceStart (inp ++ [c]) = [c] := by rw [sinceStart_snoc]; simp [hst]
    rw [hss, h1, h2, h3]
    refine ⟨Shape.start hst, rfl, ?_, by simp⟩
    intro _
    refine ⟨by omega, ?_⟩
    have := take_set_succ s.m_sentence 0 c (by rw [hlen]; simp [SENTENCE_SIZE])
    simpa using this
  · right
    have hinv : s.m_state ≠ NMEA0183_INVALID := by
      intro h0; rw [h0] at harc; simp [Arc] at harc
    rcases hcase with h0 | ⟨hsh, hi1, hi2, _⟩
    · exact absurd h0 hinv
    · obtain ⟨hi3, hi4⟩ := hi2 ha
      have hne := (shape_facts hsh).1
      have hss : sinceStart (inp ++ [c]) = sinceStart inp ++ [c] := by
        rw [sinceStart_snoc]; simp [hst, hne]
      have hlt : s.m_index < s.m_sentence.length := by rw [hlen]; simp [SENTENCE_SIZE]; omega
      rw [hss]
      refine ⟨Shape.snoc hsh harc, by rw [h2, hi1]; simp, ?_, ?_⟩
      · intro hna
        refine ⟨by have := h4 hna; omega, ?_⟩
        rw [h2, h3, if_neg hna, take_set_succ _ _ _ hlt, hi4]
      · intro hacc
        refine ⟨by omega, ?_⟩
        rw [h2, h3, if_pos hacc, take_set_succ _ _ _ hlt, hi4]
        simp

theorem inv_feed (inp : List Nat) (s : NMEA0183) (bs : List Nat) (hb : ∀ b ∈ bs, b < 256)
    (h : Inv inp s) : Inv (inp ++ bs) (feed s bs) := by
  induction bs generalizing inp s with
  | nil => simpa [feed] using h
  | cons b bs ih =>
    have h1 := inv_update inp s b (hb b (by simp)) h
    have h2 := ih (inp ++ [b]) (update s b).1 (fun x hx => hb x (by simp [hx])) h1
    simpa [feed] using h2



/-! ## From `Shape` to the grammar -/

theorem fieldBytes_append (a b : List (List Nat)) :
    fieldBytes (a ++ b) = fieldBytes a ++ fieldBytes b := by
  induction a with
  | nil => simp [fieldBytes]
  | cons f fs ih => simp [fieldBytes, ih]

theorem fieldBytes_single (f : List Nat) : fieldBytes [f] = 0x2C :: f := by
  simp [fieldBytes]

theorem shape_desc {st : ParseState} {l : List Nat} (h : Shape st l) : ShapeDesc st l := by
  induction h with
  | start hd => exact ⟨_, [], rfl, hd, by simp, by simp⟩
  | snoc hs ha ih =>
    rename_i st0 st1 l0 c
    cases st0 <;> cases st1 <;> simp only [Arc] at ha <;>
      simp only [ShapeDesc] at ih ⊢
    · -- address byte
      obtain ⟨d, addr, rfl, hd, haddr, hf⟩ := ih
      refine ⟨d, addr ++ [c], by simp, hd, ?_, hf⟩
      intro a hmem
      rcases List.mem_append.1 hmem with h | h
      · exact haddr a h
      · simp at h; subst h; exact ha
    · -- the first comma
      obtain ⟨d, addr, rfl, hd, haddr, hf⟩ := ih
      subst ha
      exact ⟨d, addr, [], [], by simp [fieldBytes], hd, haddr, by simp⟩
    · -- `*` after the address
      obtain ⟨d, addr, rfl, hd, haddr, hf⟩ := ih
      subst ha
      exact ⟨d, addr, [], by simp [fieldBytes], hd, haddr, by simp⟩
    · -- inside the fields
      obtain ⟨d, addr, fields, last, rfl, hd, haddr, hf⟩ := ih
      rcases ha with ha | ha
      · subst ha
        refine ⟨d, addr, fields ++ [last], [], ?_, hd, haddr, ?_⟩
        · simp [fieldBytes_append, fieldBytes]
        · intro f hmem
          rcases List.mem_append.1 hmem with h | h
          · exact hf f h
          · simp at h; subst h; simp
      · refine ⟨d, addr, fields, last ++ [c], ?_, hd, haddr, ?_⟩
        · simp [fieldBytes_append, fieldBytes]
        · intro f hmem b hb
          rcases List.mem_append.1 hmem with h | h
          · exact hf f (List.mem_append.2 (Or.inl h)) b hb
          · simp at h; subst h
            rcases List.mem_append.1 hb with h | h
            · exact hf last (by simp) b h
            · simp at h; subst h; exact ha
    · -- `*` after the fields
      obtain ⟨d, addr, fields, last, rfl, hd, haddr, hf⟩ := ih
      subst ha
      exact ⟨d, addr, fields ++ [last], by simp, hd, haddr, hf⟩
    · -- first checksum digit
      obtain ⟨d, addr, fields, rfl, hp⟩ := ih
      exact ⟨d, addr, fields, c, by simp, hp, ha⟩
    · -- second checksum digit
      obtain ⟨d, addr, fields, hi, rfl, hp, hhi⟩ := ih
      exact ⟨d, addr, fields, hi, c, [], by simp, hp.1, hp.2.1, hp.2.2, hhi, ha, by simp⟩
    · -- bytes after the checksum
      obtain ⟨d, addr, fields, hi, lo, trail, rfl, hd, haddr, hf, hhi, hlo, htr⟩ := ih
      refine ⟨d, addr, fields, hi, lo, trail ++ [c], by simp, hd, haddr, hf, hhi, hlo, ?_⟩
      intro b hb
      rcases List.mem_append.1 hb with h | h
      · exact htr b h
      · simp at h; subst h; exact ha
    · -- terminator
      obtain ⟨d, addr, fields, hi, lo, trail, rfl, hd, haddr, hf, hhi, hlo, htr⟩ := ih
      exact ⟨d, addr, fields, hi, lo, trail, c, by simp, hd, haddr, hf, hhi, hlo, htr, ha⟩



/-! ## Forward steps -/

theorem upperHex_facts {c : Nat} (h : isUpperHex c) :
    c &&& 128 = 0 ∧ 48 ≤ c ∧ c ≤ 70 := by
  unfold isUpperHex at h
  exact ⟨land_128_of_lt (by omega), by omega, by omega⟩

theorem classify_live {st st1 : ParseState} {f f1 : Bool} {cs cs1 c : Nat}
    (h : LiveArc st f cs c st1 f1 cs1) (s : NMEA0183) (hst : s.m_state = st)
    (hf : s.m_update_checksum = f) (hcs : s.m_checksum = cs) :
    (classify s c).1.m_state = st1 ∧ (classify s c).1.m_update_checksum = f1 ∧
    (classify s c).1.m_checksum = cs ∧ (classify s c).1.m_index = s.m_index ∧
    (classify s c).2 = c ∧ cs1 = (if f1 then (cs ^^^ c) % 256 else cs) ∧
    st1 ≠ NMEA0183_INVALID ∧ st1 ≠ NMEA0183_ACCEPT ∧ st ≠ NMEA0183_ACCEPT ∧ ¬ isStart c := by
  obtain ⟨st0, f0, buf, i, n, cs0⟩ := s
  simp only at hst hf hcs
  subst hst hf hcs
  cases h with
  | address ha =>
    unfold isAddressByte at ha
    have hp : c &&& 128 = 0 := land_128_of_lt (by omega)
    have h1 : ¬ (c = 33 ∨ c = 36) := by omega
    have h2 : ¬ c = 42 := by omega
    have h3 : ¬ c = 44 := by omega
    have h4 : ¬ (c = 92 ∨ c = 126 ∨ c = 127) := by omega
    have h5 : 32 ≤ c := by omega
    have h6 : (c ≥ 65 ∧ c ≤ 90) ∨ (c ≥ 48 ∧ c ≤ 57) := by omega
    have h7 : ¬ isStart c := by unfold isStart; omega
    simp [classify, hp, h1, h2, h3, h4, h5, h6, h7]
  | commaA => simp [classify, isStart, land_128_of_lt (by omega : 44 < 128)]
  | commaF => simp [classify, isStart, land_128_of_lt (by omega : 44 < 128)]
  | field ha =>
    unfold isFieldByte at ha
    have hp : c &&& 128 = 0 := land_128_of_lt (by omega)
    have h1 : ¬ (c = 33 ∨ c = 36) := by omega
    have h2 : ¬ c = 42 := by omega
    have h3 : ¬ c = 44 := by omega
    have h4 : ¬ (c = 92 ∨ c = 126 ∨ c = 127) := by omega
    have h5 : 32 ≤ c := by omega
    have h7 : ¬ isStart c := by unfold isStart; omega
    simp [classify, hp, h1, h2, h3, h4, h5, h7]
  | starA => simp [classify, isStart, land_128_of_lt (by omega : 42 < 128)]
  | starF => simp [classify, isStart, land_128_of_lt (by omega : 42 < 128)]
  | hi =>
    obtain ⟨hp, ha, hb⟩ := upperHex_facts (to_hex_upper (cs1 >>> 4))
    have h1 : ¬ (to_hex (cs1 >>> 4) = 33 ∨ to_hex (cs1 >>> 4) = 36) := by omega
    have h2 : ¬ to_hex (cs1 >>> 4) = 42 := by omega
    have h3 : ¬ to_hex (cs1 >>> 4) = 44 := by omega
    have h4 : ¬ (to_hex (cs1 >>> 4) = 92 ∨ to_hex (cs1 >>> 4) = 126 ∨ to_hex (cs1 >>> 4) = 127) := by
      omega
    have h5 : 32 ≤ to_hex (cs1 >>> 4) := by omega
    have h7 : ¬ isStart (to_hex (cs1 >>> 4)) := by unfold isStart; omega
    simp [classify, hp, h1, h2, h3, h4, h5, h7]
  | lo =>
    obtain ⟨hp, ha, hb⟩ := upperHex_facts (to_hex_upper (cs1 &&& 15))
    have h1 : ¬ (to_hex (cs1 &&& 15) = 33 ∨ to_hex (cs1 &&& 15) = 36) := by omega
    have h2 : ¬ to_hex (cs1 &&& 15) = 42 := by omega
    have h3 : ¬ to_hex (cs1 &&& 15) = 44 := by omega
    have h4 : ¬ (to_hex (cs1 &&& 15) = 92 ∨ to_hex (cs1 &&& 15) = 126 ∨ to_hex (cs1 &&& 15) = 127) := by
      omega
    have h5 : 32 ≤ to_hex (cs1 &&& 15) := by omega
    have h7 : ¬ isStart (to_hex (cs1 &&& 15)) := by unfold isStart; omega
    simp [classify, hp, h1, h2, h3, h4, h5, h7]



theorem update_live {st st1 : ParseState} {f f1 : Bool} {cs cs1 c : Nat}
    (h : LiveArc st f cs c st1 f1 cs1) (s : NMEA0183) (hst : s.m_state = st)
    (hf : s.m_update_checksum = f) (hcs : s.m_checksum = cs) (hi : s.m_index + 1 < 82) :
    (update s c).1.m_state = st1 ∧ (update s c).1.m_update_checksum = f1 ∧
    (update s c).1.m_checksum = cs1 ∧ (update s c).1.m_index = s.m_index + 1 ∧
    (update s c).1.m_sentence = s.m_sentence.set s.m_index c := by
  obtain ⟨k1, k2, k3, k4, k5, k6, k7, k8, k9, _⟩ := classify_live h s hst hf hcs
  have hd : discard s = s := (discard_state s).2.2 (by rw [hst]; exact k9)
  rw [update_fst, hd, store_live _ _ (by rw [k1]; exact k7) (Or.inl (by omega))]
  simp [k1, k2, k3, k4, k5, k6, classify_sentence]

theorem update_overflow {st st1 : ParseState} {f f1 : Bool} {cs cs1 c : Nat}
    (h : LiveArc st f cs c st1 f1 cs1) (s : NMEA0183) (hst : s.m_state = st)
    (hf : s.m_update_checksum = f) (hcs : s.m_checksum = cs) (hi : s.m_index + 1 = 82) :
    (update s c).1.m_state = NMEA0183_INVALID ∧ (update s c).1.m_update_checksum = false := by
  obtain ⟨k1, k2, k3, k4, k5, k6, k7, k8, k9, _⟩ := classify_live h s hst hf hcs
  have hd : discard s = s := (discard_state s).2.2 (by rw [hst]; exact k9)
  rw [update_fst, hd]
  have := store_overflow (classify s c).1 (classify s c).2 (by rw [k1]; exact k7)
    (by rw [k1]; exact k8) (by omega)
  exact ⟨this.1, this.2.1⟩

theorem classify_invalid (s : NMEA0183) (c : Nat) (hs : s.m_state = NMEA0183_INVALID)
    (hf : s.m_update_checksum = false) (hc : ¬ isStart c) :
    (classify s c).1.m_state = NMEA0183_INVALID ∧
      (classify s c).1.m_update_checksum = false := by
  obtain ⟨st, f, buf, i, n, cs⟩ := s
  simp only at hs hf
  subst hs hf
  unfold isStart at hc
  have h1 : ¬ (c = 33 ∨ c = 36) := by omega
  simp only [classify, reset, h1, if_false, reduceCtorEq, or_self, false_and]
  split_ifs <;> simp

theorem update_dead (s : NMEA0183) (c : Nat)
    (hs : (s.m_state = NMEA0183_INVALID ∧ s.m_update_checksum = false) ∨
      s.m_state = NMEA0183_ACCEPT)
    (hc : ¬ isStart c) :
    (update s c).1.m_state = NMEA0183_INVALID ∧ (update s c).1.m_update_checksum = false := by
  have hd : (discard s).m_state = NMEA0183_INVALID ∧ (discard s).m_update_checksum = false := by
    rcases hs with ⟨h1, h2⟩ | h
    · have : discard s = s := (discard_state s).2.2 (by rw [h1]; simp)
      rw [this]; exact ⟨h1, h2⟩
    · exact (discard_state s).2.1 h
  have hcl := classify_invalid (discard s) c hd.1 hd.2 hc
  rw [update_fst, store_invalid _ _ hcl.1]
  exact hcl

theorem update_start (s : NMEA0183) (c : Nat) (hc : isStart c)
    (hs : s.m_update_checksum = false) :
    (update s c).1.m_state = NMEA0183_ADDRESS ∧ (update s c).1.m_update_checksum = false ∧
    (update s c).1.m_checksum = 0 ∧ (update s c).1.m_index = 1 ∧
    (update s c).1.m_sentence = s.m_sentence.set 0 c := by
  have hdf : (discard s).m_update_checksum = false := by
    by_cases ha : s.m_state = NMEA0183_ACCEPT
    · exact ((discard_state s).2.1 ha).2
    · rw [(discard_state s).2.2 ha]; exact hs
  have hdb := discard_sentence s
  have hcl : classify (discard s) c =
      ({ discard s with m_index := 0, m_fields := 0, m_checksum := 0,
                        m_state := NMEA0183_ADDRESS }, c) := by
    unfold isStart at hc
    have hp : c &&& 128 = 0 := land_128_of_lt (by omega)
    have h1 : c = 33 ∨ c = 36 := by omega
    have h5 : 32 ≤ c := by omega
    simp [classify, hp, h1, h5]
  rw [update_fst, hcl, store_live _ _ (by simp) (Or.inl (by simp))]
  simp [hdf, hdb]

theorem update_term (s : NMEA0183) (c : Nat) (hst : s.m_state = NMEA0183_EOS)
    (hf : s.m_update_checksum = false) (hi : s.m_index ≤ 81) (hc : isTerminator c) :
    (update s c).1.m_state = NMEA0183_ACCEPT ∧ (update s c).1.m_update_checksum = false ∧
    (update s c).1.m_index = s.m_index + 1 ∧
    (update s c).1.m_sentence = s.m_sentence.set s.m_index 0 := by
  have hd : discard s = s := (discard_state s).2.2 (by rw [hst]; simp)
  have hcl : classify s c = ({ s with m_state := NMEA0183_ACCEPT }, 0) := by
    unfold isTerminator at hc
    have h1 : ¬ (c &&& 128 = 0 ∧ c ≥ 32) := by
      rintro ⟨_, h⟩; omega
    have h2 : c = 10 ∨ c = 13 := by omega
    simp only [classify]
    rw [if_neg (by simpa using h1), if_pos ⟨hst, by simpa using h2⟩]
  rw [update_fst, hd, hcl, store_live _ _ (by simp) (Or.inr ⟨rfl, by simp; omega⟩)]
  simp [hf]



/-! ## Runs of `update` -/

theorem feed_append (s : NMEA0183) (a b : List Nat) :
    feed s (a ++ b) = feed (feed s a) b := by
  induction a generalizing s with
  | nil => rfl
  | cons c a ih => simp [feed, ih]

theorem returns_append (s : NMEA0183) (a b : List Nat) :
    returns s (a ++ b) = returns s a ++ returns (feed s a) b := by
  induction a generalizing s with
  | nil => rfl
  | cons c a ih => simp [feed, returns, ih]

theorem feed_length (s : NMEA0183) (bs : List Nat) :
    (feed s bs).m_sentence.length = s.m_sentence.length := by
  induction bs generalizing s with
  | nil => rfl
  | cons c bs ih => simp [feed, ih, update_length]

theorem track_step {st st1 : ParseState} {f f1 : Bool} {cs cs1 c : Nat}
    (h : LiveArc st f cs c st1 f1 cs1) (s : NMEA0183) (cur : List Nat)
    (ht : Track s st f cur cs) :
    Track (update s c).1 st1 f1 (cur ++ [c]) cs1 ∧ (update s c).2 = false := by
  obtain ⟨hlen, hcase⟩ := ht
  have hlen2 : (update s c).1.m_sentence.length = SENTENCE_SIZE := by
    rw [update_length]; exact hlen
  have hns : ¬ isStart c := by
    have := classify_live h ⟨st, f, [], 0, 0, cs⟩ rfl rfl rfl
    exact this.2.2.2.2.2.2.2.2.2
  have hst1 : st1 ≠ NMEA0183_ACCEPT := by
    have := classify_live h ⟨st, f, [], 0, 0, cs⟩ rfl rfl rfl
    exact this.2.2.2.2.2.2.2.1
  rw [update_false_iff]
  rcases hcase with ⟨hl, h1, h2, h3, h4, h5⟩ | ⟨hl, h1, h2⟩
  · by_cases h82 : cur.length + 1 < 82
    · obtain ⟨k1, k2, k3, k4, k5⟩ := update_live h s h1 h2 h5 (by omega)
      refine ⟨⟨hlen2, Or.inl ⟨by simpa using h82, k1, k2, by simp [k4, h3], ?_, k3⟩⟩,
        by rw [k1]; exact hst1⟩
      rw [k5, h3]
      have := take_set_succ s.m_sentence cur.length c (by rw [hlen]; simp [SENTENCE_SIZE]; omega)
      simpa [h4] using this
    · obtain ⟨k1, k2⟩ := update_overflow h s h1 h2 h5 (by omega)
      exact ⟨⟨hlen2, Or.inr ⟨by simp; omega, k1, k2⟩⟩, by rw [k1]; simp⟩
  · obtain ⟨k1, k2⟩ := update_dead s c (Or.inl ⟨h1, h2⟩) hns
    exact ⟨⟨hlen2, Or.inr ⟨by simp; omega, k1, k2⟩⟩, by rw [k1]; simp⟩

theorem track_path {st st1 : ParseState} {f f1 : Bool} {cs cs1 : Nat} {bs : List Nat}
    (h : LivePath st f cs bs st1 f1 cs1) (s : NMEA0183) (cur : List Nat)
    (ht : Track s st f cur cs) :
    Track (feed s bs) st1 f1 (cur ++ bs) cs1 ∧
      returns s bs = List.replicate bs.length false := by
  induction h generalizing s cur with
  | nil => simpa [feed, returns] using ht
  | cons harc _ ih =>
    obtain ⟨k1, k2⟩ := track_step harc s cur ht
    obtain ⟨k3, k4⟩ := ih _ _ k1
    refine ⟨by simpa [feed] using k3, ?_⟩
    simp [returns, k2, k4, List.replicate_succ]

theorem livePath_append {st st1 st2 : ParseState} {f f1 f2 : Bool} {cs cs1 cs2 : Nat}
    {a b : List Nat} (h1 : LivePath st f cs a st1 f1 cs1) (h2 : LivePath st1 f1 cs1 b st2 f2 cs2) :
    LivePath st f cs (a ++ b) st2 f2 cs2 := by
  induction h1 with
  | nil => simpa using h2
  | cons harc _ ih => exact LivePath.cons harc (ih h2)



/-! ## The path of a well-formed sentence -/

theorem xor_byte {x b : Nat} (hx : x < 256) (hb : b < 256) :
    (x ^^^ b) % 256 = x ^^^ b ∧ x ^^^ b < 256 := by
  have h : x ^^^ b < 2 ^ 8 := Nat.xor_lt_two_pow (by simpa using hx) (by simpa using hb)
  have h2 : x ^^^ b < 256 := by simpa using h
  exact ⟨Nat.mod_eq_of_lt h2, h2⟩

theorem fold_mod_eq (bs : List Nat) (cs : Nat) (hb : ∀ b ∈ bs, b < 256) (hcs : cs < 256) :
    bs.foldl (fun x b => (x ^^^ b) % 256) cs = bs.foldl (fun x b => x ^^^ b) cs ∧
      bs.foldl (fun x b => x ^^^ b) cs < 256 := by
  induction bs generalizing cs with
  | nil => exact ⟨rfl, hcs⟩
  | cons b bs ih =>
    obtain ⟨h1, h2⟩ := xor_byte hcs (hb b (by simp))
    simp only [List.foldl_cons, h1]
    exact ih _ (fun x hx => hb x (by simp [hx])) h2

theorem path_address_on (addr : List Nat) (cs : Nat) (h : ∀ a ∈ addr, isAddressByte a) :
    LivePath NMEA0183_ADDRESS true cs addr NMEA0183_ADDRESS true
      (addr.foldl (fun x b => (x ^^^ b) % 256) cs) := by
  induction addr generalizing cs with
  | nil => exact LivePath.nil
  | cons a addr ih =>
    exact LivePath.cons (LiveArc.address (h a (by simp))) (ih _ (fun x hx => h x (by simp [hx])))

theorem path_address (addr : List Nat) (f : Bool) (cs : Nat) (h : ∀ a ∈ addr, isAddressByte a)
    (hne : addr ≠ []) :
    LivePath NMEA0183_ADDRESS f cs addr NMEA0183_ADDRESS true
      (addr.foldl (fun x b => (x ^^^ b) % 256) cs) := by
  cases addr with
  | nil => exact absurd rfl hne
  | cons a addr =>
    exact LivePath.cons (LiveArc.address (h a (by simp)))
      (path_address_on addr _ (fun x hx => h x (by simp [hx])))

theorem path_field (fl : List Nat) (cs : Nat) (h : ∀ b ∈ fl, isFieldByte b) :
    LivePath NMEA0183_FIELD_DATA true cs fl NMEA0183_FIELD_DATA true
      (fl.foldl (fun x b => (x ^^^ b) % 256) cs) := by
  induction fl generalizing cs with
  | nil => exact LivePath.nil
  | cons b fl ih =>
    exact LivePath.cons (LiveArc.field (h b (by simp))) (ih _ (fun x hx => h x (by simp [hx])))

theorem path_fields (fields : List (List Nat)) (cs : Nat)
    (h : ∀ f ∈ fields, ∀ b ∈ f, isFieldByte b) :
    LivePath NMEA0183_FIELD_DATA true cs (fieldBytes fields) NMEA0183_FIELD_DATA true
      ((fieldBytes fields).foldl (fun x b => (x ^^^ b) % 256) cs) := by
  induction fields generalizing cs with
  | nil => exact LivePath.nil
  | cons f fs ih =>
    have h1 := path_field f ((cs ^^^ 0x2C) % 256) (h f (by simp))
    have h2 := ih (f.foldl (fun x b => (x ^^^ b) % 256) ((cs ^^^ 0x2C) % 256))
      (fun g hg => h g (by simp [hg]))
    have h3 := LivePath.cons LiveArc.commaF (livePath_append h1 h2)
    simpa [fieldBytes, List.foldl_append] using h3

theorem path_body (w : Sentence) (hw : w.WellFormed) :
    LivePath NMEA0183_ADDRESS false 0 (w.content ++ [0x2A]) NMEA0183_CHECKSUM_HI false
      (w.content.foldl (fun x b => (x ^^^ b) % 256) 0) := by
  obtain ⟨_, hne, haddr, hf⟩ := hw
  have ha := path_address w.address false 0 haddr hne
  unfold Sentence.content
  cases hfs : w.fields with
  | nil =>
    have := livePath_append ha (LivePath.cons LiveArc.starA LivePath.nil)
    simpa [fieldBytes] using this
  | cons f fs =>
    rw [hfs] at hf
    have h1 := path_field f
      (((w.address.foldl (fun x b => (x ^^^ b) % 256) 0) ^^^ 0x2C) % 256) (hf f (by simp))
    have h2 := path_fields fs
      (f.foldl (fun x b => (x ^^^ b) % 256)
        (((w.address.foldl (fun x b => (x ^^^ b) % 256) 0) ^^^ 0x2C) % 256))
      (fun g hg => hf g (by simp [hg]))
    have h3 := livePath_append ha
      (LivePath.cons LiveArc.commaA
        (livePath_append h1 (livePath_append h2 (LivePath.cons LiveArc.starF LivePath.nil))))
    simpa [fieldBytes, List.foldl_append] using h3

theorem content_bytes (w : Sentence) (hw : w.WellFormed) : ∀ b ∈ w.content, b < 128 ∧ b ≠ 0 := by
  obtain ⟨_, _, haddr, hf⟩ := hw
  have hfb : ∀ fields : List (List Nat), (∀ f ∈ fields, ∀ b ∈ f, isFieldByte b) →
      ∀ b ∈ fieldBytes fields, b < 128 ∧ b ≠ 0 := by
    intro fields
    induction fields with
    | nil => intro _ b hb; simp [fieldBytes] at hb
    | cons f fs ih =>
      intro h b hb
      simp only [fieldBytes, List.mem_cons, List.mem_append] at hb
      rcases hb with hb | hb
      · rcases hb with rfl | hb
        · omega
        · have := h f (by simp) b hb
          unfold isFieldByte at this; omega
      · exact ih (fun g hg => h g (by simp [hg])) b hb
  intro b hb
  rcases List.mem_append.1 hb with h | h
  · have := haddr b h
    unfold isAddressByte at this; omega
  · exact hfb _ hf b h

theorem checksum_eq (w : Sentence) (hw : w.WellFormed) :
    w.content.foldl (fun x b => (x ^^^ b) % 256) 0 = w.checksum ∧ w.checksum < 256 := by
  have := fold_mod_eq w.content 0 (fun b hb => by have := (content_bytes w hw b hb).1; omega)
    (by omega)
  exact ⟨this.1, this.2⟩

theorem path_wire (w : Sentence) (hw : w.WellFormed) :
    LivePath NMEA0183_ADDRESS false 0 (w.content ++ [0x2A] ++ w.digits) NMEA0183_EOS false
      w.checksum := by
  have hb := path_body w hw
  obtain ⟨h1, h2⟩ := checksum_eq w hw
  rw [h1] at hb
  obtain ⟨k1, k2⟩ := to_hex_checksum w.checksum h2
  have hd : LivePath NMEA0183_CHECKSUM_HI false w.checksum w.digits NMEA0183_EOS false
      w.checksum := by
    unfold Sentence.digits
    rw [← k1, ← k2]
    exact LivePath.cons LiveArc.hi (LivePath.cons LiveArc.lo LivePath.nil)
  exact livePath_append hb hd



/-! ## Acceptance of a well-formed sentence -/

theorem cstring_of_take (buf l : List Nat) (n : Nat) (h : buf.take n = l ++ [0])
    (hl : ∀ b ∈ l, b ≠ 0) : cstring buf = l := by
  have hb : buf = (l ++ [0]) ++ buf.drop n := by rw [← h, List.take_append_drop]
  rw [hb]
  unfold cstring
  clear hb h
  induction l with
  | nil => simp
  | cons a l ih =>
    have ha : a ≠ 0 := hl a (by simp)
    have := ih (fun b hb => hl b (by simp [hb]))
    simp [List.takeWhile_cons, ha] at this ⊢
    exact this

theorem wire_eq (w : Sentence) : w.wire = w.start :: (w.content ++ [0x2A] ++ w.digits) := by
  simp [Sentence.wire, Sentence.body]

theorem upperHexDigit_ne_zero (n : Nat) (h : n < 16) : upperHexDigit n ≠ 0 := by
  have : ∀ n, n < 16 → upperHexDigit n ≠ 0 := by decide
  exact this n h

theorem wire_bytes (w : Sentence) (hw : w.WellFormed) : ∀ b ∈ w.wire, b ≠ 0 := by
  intro b hb
  obtain ⟨_, h256⟩ := checksum_eq w hw
  simp only [Sentence.wire, Sentence.body, Sentence.digits, List.mem_append, List.mem_cons,
    List.mem_singleton, List.not_mem_nil, or_false] at hb
  rcases hb with ((rfl | hb) | rfl) | rfl | rfl
  · have := hw.1; unfold isStart at this; omega
  · exact (content_bytes w hw b hb).2
  · omega
  · exact upperHexDigit_ne_zero _ (by omega)
  · exact upperHexDigit_ne_zero _ (by omega)

theorem accept_wire (s : NMEA0183) (w : Sentence) (t : Nat)
    (hf : s.m_update_checksum = false) (hlen : s.m_sentence.length = SENTENCE_SIZE)
    (hw : w.WellFormed) (hl : w.wire.length ≤ 81) (ht : isTerminator t) :
    returns s (w.wire ++ [t]) = List.replicate w.wire.length false ++ [true] ∧
    (feed s (w.wire ++ [t])).m_state = NMEA0183_ACCEPT ∧
    (feed s (w.wire ++ [t])).m_update_checksum = false ∧
    (feed s (w.wire ++ [t])).m_sentence.length = SENTENCE_SIZE ∧
    getSentence (feed s (w.wire ++ [t])) = some w.wire := by
  -- the start delimiter
  obtain ⟨a1, a2, a3, a4, a5⟩ := update_start s w.start hw.1 hf
  have hr1 : (update s w.start).2 = false := by rw [update_false_iff, a1]; simp
  have ht1 : Track (update s w.start).1 NMEA0183_ADDRESS false [w.start] 0 := by
    refine ⟨by rw [update_length]; exact hlen, Or.inl ⟨by simp, a1, a2, by simp [a4], ?_, a3⟩⟩
    rw [a5]
    have := take_set_succ s.m_sentence 0 w.start (by rw [hlen]; simp [SENTENCE_SIZE])
    simpa using this
  -- address, fields, `*` and the two digits
  obtain ⟨ht2, hr2⟩ := track_path (path_wire w hw) _ _ ht1
  have hwe := wire_eq w
  have hcur : [w.start] ++ (w.content ++ [0x2A] ++ w.digits) = w.wire := by rw [hwe]; simp
  rw [hcur] at ht2
  obtain ⟨b0, hcase⟩ := ht2
  rcases hcase with ⟨_, b1, b2, b3, b4, b5⟩ | ⟨hbad, _⟩
  swap
  · omega
  -- the terminator
  obtain ⟨c1, c2, c3, c4⟩ := update_term _ t b1 b2 (by omega) ht
  have hfeed : feed s (w.wire ++ [t]) =
      (update (feed (update s w.start).1 (w.content ++ [0x2A] ++ w.digits)) t).1 := by
    rw [hwe]; simp [feed, feed_append]
  have hret : returns s (w.wire ++ [t]) = List.replicate w.wire.length false ++ [true] := by
    have hc1 : (update (feed (update s w.start).1 (w.content ++ [0x2A] ++ w.digits)) t).2
        = true := by
      rw [update_snd, c1]; simp
    rw [hwe, List.cons_append]
    rw [show returns s (w.start :: (w.content ++ [0x2A] ++ w.digits ++ [t])) =
      (update s w.start).2 ::
        returns (update s w.start).1 (w.content ++ [0x2A] ++ w.digits ++ [t]) from rfl]
    rw [returns_append, hr1, hr2]
    rw [show returns (feed (update s w.start).1 (w.content ++ [0x2A] ++ w.digits)) [t] =
      [(update (feed (update s w.start).1 (w.content ++ [0x2A] ++ w.digits)) t).2] from rfl]
    rw [hc1, List.length_cons, List.replicate_succ]
    rfl
  refine ⟨hret, ?_⟩
  rw [hfeed]
  refine ⟨c1, c2, by rw [update_length]; exact b0, ?_⟩
  unfold getSentence
  rw [if_pos c1]
  congr 1
  apply cstring_of_take _ _ (w.wire.length + 1) _ (wire_bytes w hw)
  rw [c4, b3, take_set_succ _ _ _ (by rw [b0]; simp [SENTENCE_SIZE]; omega), b4]



/-! ## What an acceptance says about the input -/

theorem shape_accept_inv {st : ParseState} {l : List Nat} (h : Shape st l)
    (hst : st = NMEA0183_ACCEPT) :
    ∃ l0 c, l = l0 ++ [c] ∧ Shape NMEA0183_EOS l0 ∧ isTerminator c := by
  cases h with
  | start hd => simp at hst
  | snoc hs ha =>
    rename_i st0 l0 c
    subst hst
    cases st0 <;> simp only [Arc] at ha
    exact ⟨l0, c, rfl, hs, ha⟩

theorem fieldBytes_printable (fields : List (List Nat))
    (h : ∀ f ∈ fields, ∀ b ∈ f, isFieldByte b) :
    ∀ b ∈ fieldBytes fields, 32 ≤ b ∧ b ≤ 126 := by
  induction fields with
  | nil => intro b hb; simp [fieldBytes] at hb
  | cons f fs ih =>
    intro b hb
    simp only [fieldBytes, List.mem_cons, List.mem_append] at hb
    rcases hb with hb | hb
    · rcases hb with rfl | hb
      · omega
      · have := h f (by simp) b hb
        unfold isFieldByte at this; omega
    · exact ih (fun g hg => h g (by simp [hg])) b hb

theorem sentenceText_printable {t : List Nat} (h : SentenceText t) :
    ∀ b ∈ t, 32 ≤ b ∧ b ≤ 126 := by
  obtain ⟨d, addr, fields, hi, lo, trail, rfl, hd, haddr, hf, hhi, hlo, htr⟩ := h
  intro b hb
  simp only [List.cons_append, List.mem_cons, List.mem_append, List.not_mem_nil, or_false,
    false_or, List.append_assoc] at hb
  unfold isStart at hd
  unfold isUpperHex at hhi hlo
  rcases hb with rfl | hb | hb | rfl | rfl | rfl | hb
  · omega
  · have := haddr b hb; unfold isAddressByte at this; omega
  · exact fieldBytes_printable fields hf b hb
  · omega
  · omega
  · omega
  · have := htr b hb; unfold isFieldByte at this; omega

theorem inv_accept (inp : List Nat) (s : NMEA0183) (h : Inv inp s)
    (ha : s.m_state = NMEA0183_ACCEPT) :
    ∃ t term, sinceStart inp = t ++ [term] ∧ SentenceText t ∧ isTerminator term ∧
      getSentence s = some t ∧ WireFormatLoose (sinceStart inp) := by
  obtain ⟨hlen, hcase⟩ := h
  rcases hcase with h0 | ⟨hsh, hi1, _, hi3⟩
  · rw [ha] at h0; simp at h0
  · obtain ⟨_, htake⟩ := hi3 ha
    have hw : WireFormatLoose (sinceStart inp) := by
      have := shape_desc hsh
      rw [ha] at this
      exact this
    rw [ha] at hsh
    obtain ⟨t, term, heq, hs0, hterm⟩ := shape_accept_inv hsh rfl
    have htext : SentenceText t := shape_desc hs0
    refine ⟨t, term, heq, htext, hterm, ?_, hw⟩
    unfold getSentence
    rw [if_pos ha]
    congr 1
    apply cstring_of_take _ _ s.m_index
    · rw [htake, heq]; simp
    · intro b hb
      have := sentenceText_printable htext b hb
      omega

theorem inv_of_bytes (inp : List Nat) (hb : ∀ b ∈ inp, isByte b) : Inv inp (feed new inp) := by
  have := inv_feed [] new inp hb inv_new
  simpa using this



/-! ## Rejection of a wrong checksum -/

theorem store_state (s : NMEA0183) (c : Nat) :
    (store s c).m_state = NMEA0183_INVALID ∨
    ((store s c).m_state = s.m_state ∧
      (store s c).m_checksum =
        if s.m_update_checksum then (s.m_checksum ^^^ c) % 256 else s.m_checksum) := by
  obtain ⟨st, f, buf, i, n, cs⟩ := s
  generalize hq : store _ c = q
  simp only [store, reset] at hq
  cases f <;> simp only [if_true, if_false, Bool.false_eq_true] at hq <;>
    split_ifs at hq <;> subst hq <;> simp_all

theorem classify_checksum_hi (s : NMEA0183) (c : Nat) (hs : s.m_state = NMEA0183_CHECKSUM_HI)
    (h : (classify s c).1.m_state = NMEA0183_CHECKSUM_LO) :
    c = to_hex (s.m_checksum >>> 4) ∧ (classify s c).1.m_checksum = s.m_checksum ∧
      (classify s c).1.m_update_checksum = s.m_update_checksum ∧ (classify s c).2 = c := by
  obtain ⟨st, f, buf, i, n, cs⟩ := s
  simp only at hs
  subst hs
  generalize hq : classify _ c = q at h
  simp only [classify, reset, reduceCtorEq, or_self, if_false, false_and] at hq
  split_ifs at hq <;> subst hq <;> simp_all

theorem classify_checksum_lo (s : NMEA0183) (c : Nat) (hs : s.m_state = NMEA0183_CHECKSUM_LO)
    (h : (classify s c).1.m_state = NMEA0183_EOS) :
    c = to_hex (s.m_checksum &&& 0x0f) := by
  obtain ⟨st, f, buf, i, n, cs⟩ := s
  simp only at hs
  subst hs
  generalize hq : classify _ c = q at h
  simp only [classify, reset, reduceCtorEq, or_self, if_false, false_and] at hq
  split_ifs at hq <;> subst hq <;> simp_all

theorem update_checksum_hi (s : NMEA0183) (c : Nat) (hs : s.m_state = NMEA0183_CHECKSUM_HI)
    (hf : s.m_update_checksum = false)
    (h : (update s c).1.m_state = NMEA0183_CHECKSUM_LO) :
    c = to_hex (s.m_checksum >>> 4) ∧ (update s c).1.m_checksum = s.m_checksum := by
  have hd : discard s = s := (discard_state s).2.2 (by rw [hs]; simp)
  rw [update_fst, hd] at h ⊢
  rcases store_state (classify s c).1 (classify s c).2 with h0 | ⟨h1, h2⟩
  · rw [h0] at h; simp at h
  · rw [h1] at h
    obtain ⟨k1, k2, k3, _⟩ := classify_checksum_hi s c hs h
    refine ⟨k1, ?_⟩
    rw [h2, k3, hf, k2]; simp

theorem update_checksum_lo (s : NMEA0183) (c : Nat) (hs : s.m_state = NMEA0183_CHECKSUM_LO)
    (h : (update s c).1.m_state = NMEA0183_EOS) :
    c = to_hex (s.m_checksum &&& 0x0f) := by
  have hd : discard s = s := (discard_state s).2.2 (by rw [hs]; simp)
  rw [update_fst, hd] at h
  rcases store_state (classify s c).1 (classify s c).2 with h0 | ⟨h1, _⟩
  · rw [h0] at h; simp at h
  · rw [h1] at h
    exact classify_checksum_lo s c hs h

theorem step_state (inp : List Nat) (s : NMEA0183) (c : Nat) (hc : c < 256) (h : Inv inp s) :
    (update s c).1.m_state = NMEA0183_INVALID ∨
    (isStart c ∧ (update s c).1.m_state = NMEA0183_ADDRESS) ∨
    (¬ isStart c ∧ Arc s.m_state c (update s c).1.m_state) := by
  obtain ⟨hlen, hcase⟩ := h
  have hx : s.m_state ≠ NMEA0183_FIELD_DATA_HEX_HI ∧ s.m_state ≠ NMEA0183_FIELD_DATA_HEX_LO := by
    rcases hcase with h0 | ⟨hsh, _⟩
    · simp [h0]
    · exact ⟨(shape_facts hsh).2.2.1, (shape_facts hsh).2.2.2⟩
  have hidx : s.m_state ≠ NMEA0183_ACCEPT → s.m_state ≠ NMEA0183_INVALID → s.m_index ≤ 81 := by
    intro ha hi
    rcases hcase with h0 | ⟨_, _, h3, _⟩
    · exact absurd h0 hi
    · exact (h3 ha).1
  rcases update_arc s c hc hx.1 hx.2 hidx with h0 | ⟨hst, h1, _⟩ | ⟨hst, _, harc, _⟩
  · exact Or.inl h0
  · exact Or.inr (Or.inl ⟨hst, h1⟩)
  · exact Or.inr (Or.inr ⟨hst, harc⟩)

theorem arc_source {st st1 : ParseState} {c : Nat} (h : Arc st c st1) :
    (st1 = NMEA0183_ACCEPT → st = NMEA0183_EOS) ∧
    (st1 = NMEA0183_EOS → st = NMEA0183_CHECKSUM_LO ∨ st = NMEA0183_EOS) ∧
    (st1 = NMEA0183_CHECKSUM_LO → st = NMEA0183_CHECKSUM_HI) ∧
    (c < 32 → st = NMEA0183_EOS) := by
  cases st <;> cases st1 <;>
    simp only [Arc, isAddressByte, isFieldByte, isUpperHex, isTerminator] at h <;>
    simp <;> omega



theorem body_eq (w : Sentence) : w.body = w.start :: (w.content ++ [0x2A]) := by
  simp [Sentence.body]

theorem body_bytes (w : Sentence) (hw : w.WellFormed) : ∀ b ∈ w.body, isByte b := by
  intro b hb
  unfold isByte
  simp only [Sentence.body, List.cons_append, List.mem_cons, List.mem_append,
    List.not_mem_nil, or_false] at hb
  rcases hb with rfl | hb | rfl
  · have := hw.1; unfold isStart at this; omega
  · have := (content_bytes w hw b hb).1; omega
  · omega

theorem feed_body (s : NMEA0183) (w : Sentence) (hf : s.m_update_checksum = false)
    (hlen : s.m_sentence.length = SENTENCE_SIZE) (hw : w.WellFormed) :
    Track (feed s w.body) NMEA0183_CHECKSUM_HI false w.body w.checksum ∧
      returns s w.body = List.replicate w.body.length false := by
  obtain ⟨a1, a2, a3, a4, a5⟩ := update_start s w.start hw.1 hf
  have hr1 : (update s w.start).2 = false := by rw [update_false_iff, a1]; simp
  have ht1 : Track (update s w.start).1 NMEA0183_ADDRESS false [w.start] 0 := by
    refine ⟨by rw [update_length]; exact hlen, Or.inl ⟨by simp, a1, a2, by simp [a4], ?_, a3⟩⟩
    rw [a5]
    have := take_set_succ s.m_sentence 0 w.start (by rw [hlen]; simp [SENTENCE_SIZE])
    simpa using this
  have hp := path_body w hw
  rw [(checksum_eq w hw).1] at hp
  obtain ⟨ht2, hr2⟩ := track_path hp _ _ ht1
  rw [body_eq]
  refine ⟨by simpa [feed] using ht2, ?_⟩
  rw [show returns s (w.start :: (w.content ++ [0x2A])) =
    (update s w.start).2 :: returns (update s w.start).1 (w.content ++ [0x2A]) from rfl,
    hr1, hr2, List.length_cons, List.replicate_succ]

theorem mismatch_tail (inp : List Nat) (s : NMEA0183) (cs h l : Nat) (hinv : Inv inp s)
    (hs : (s.m_state = NMEA0183_CHECKSUM_HI ∧ s.m_update_checksum = false ∧
        s.m_checksum = cs) ∨ s.m_state = NMEA0183_INVALID)
    (hh : isByte h) (hl : isByte l)
    (hne : [h, l] ≠ [to_hex (cs >>> 4), to_hex (cs &&& 0x0f)]) :
    returns s [h, l, 0x0D, 0x0A] = [false, false, false, false] ∧
      (feed s [h, l, 0x0D, 0x0A]).m_state = NMEA0183_INVALID := by
  have i2 := inv_update inp s h hh hinv
  have i3 := inv_update _ _ l hl i2
  have i4 := inv_update _ _ 0x0D (by decide) i3
  have t2 := step_state inp s h hh hinv
  have t3 := step_state _ _ l hl i2
  have t4 := step_state _ _ 0x0D (by decide) i3
  have t5 := step_state _ _ 0x0A (by decide) i4
  have hs1 : s.m_state ≠ NMEA0183_EOS ∧ s.m_state ≠ NMEA0183_CHECKSUM_LO := by
    rcases hs with ⟨h1, _⟩ | h1 <;> rw [h1] <;> simp
  -- after `h`
  have h2a : (update s h).1.m_state ≠ NMEA0183_ACCEPT := by
    intro e
    rcases t2 with t | ⟨_, t⟩ | ⟨_, t⟩
    · rw [t] at e; simp at e
    · rw [t] at e; simp at e
    · exact hs1.1 ((arc_source t).1 e)
  have h2e : (update s h).1.m_state ≠ NMEA0183_EOS := by
    intro e
    rcases t2 with t | ⟨_, t⟩ | ⟨_, t⟩
    · rw [t] at e; simp at e
    · rw [t] at e; simp at e
    · rcases (arc_source t).2.1 e with k | k
      · exact hs1.2 k
      · exact hs1.1 k
  -- after `l`
  have h3a : (update (update s h).1 l).1.m_state ≠ NMEA0183_ACCEPT := by
    intro e
    rcases t3 with t | ⟨_, t⟩ | ⟨_, t⟩
    · rw [t] at e; simp at e
    · rw [t] at e; simp at e
    · exact h2e ((arc_source t).1 e)
  have h3e : (update (update s h).1 l).1.m_state ≠ NMEA0183_EOS := by
    intro e
    rcases t3 with t | ⟨_, t⟩ | ⟨_, t⟩
    · rw [t] at e; simp at e
    · rw [t] at e; simp at e
    · rcases (arc_source t).2.1 e with k | k
      · -- both digits matched
        have hl2 := update_checksum_lo _ l k e
        rcases t2 with t' | ⟨_, t'⟩ | ⟨_, t'⟩
        · rw [t'] at k; simp at k
        · rw [t'] at k; simp at k
        · have hk := (arc_source t').2.2.1 k
          rcases hs with ⟨_, hf, hcs⟩ | h0
          · obtain ⟨e1, e2⟩ := update_checksum_hi s h hk hf k
            rw [e2, hcs] at hl2
            rw [hcs] at e1
            exact hne (by rw [e1, hl2])
          · rw [h0] at hk; simp at hk
      · exact h2e k
  -- after CR and LF
  have h4 : (update (update (update s h).1 l).1 0x0D).1.m_state = NMEA0183_INVALID := by
    rcases t4 with t | ⟨t, _⟩ | ⟨_, t⟩
    · exact t
    · exact absurd t (by decide)
    · exact absurd ((arc_source t).2.2.2 (by decide)) h3e
  have h5 : (update (update (update (update s h).1 l).1 0x0D).1 0x0A).1.m_state =
      NMEA0183_INVALID := by
    rcases t5 with t | ⟨t, _⟩ | ⟨_, t⟩
    · exact t
    · exact absurd t (by decide)
    · have := (arc_source t).2.2.2 (by decide)
      rw [h4] at this; simp at this
  refine ⟨?_, by simpa [feed] using h5⟩
  simp only [returns, update_snd, h2a, h3a, h4, h5, decide_False, reduceCtorEq]

/-! ## Index bound and sentence endings -/

theorem discard_index_le (s : NMEA0183) (h : s.m_state ≠ NMEA0183_ACCEPT → s.m_index ≤ 81) :
    (discard s).m_index ≤ 81 := by
  unfold discard
  split_ifs with h1
  · simp [reset]
  · exact h h1

theorem store_index (s : NMEA0183) (c : Nat) (h : s.m_index ≤ 81) :
    ((store s c).m_state ≠ NMEA0183_ACCEPT → (store s c).m_index ≤ 81) ∧
      (store s c).m_index ≤ 82 := by
  by_cases hs : s.m_state = NMEA0183_INVALID
  · rw [store_invalid s c hs]; exact ⟨fun _ => h, by omega⟩
  · by_cases ha : s.m_state = NMEA0183_ACCEPT
    · rw [store_live s c hs (Or.inr ⟨ha, by omega⟩)]
      exact ⟨fun k => absurd ha k, by simp; omega⟩
    · by_cases h82 : s.m_index + 1 = 82
      · have hq : store s c = reset (store s c) := by
          obtain ⟨st, f, buf, i, n, cs⟩ := s
          simp only at hs ha h82
          have hm : (i + 1) % 256 = i + 1 := by omega
          cases f <;> simp [store, hs, hm, SENTENCE_SIZE, h82, ha, reset]
        rw [hq]; simp [reset]
      · rw [store_live s c hs (Or.inl (by omega))]
        exact ⟨fun _ => by simp; omega, by simp; omega⟩

theorem run_index (calls : List Call) (s : NMEA0183)
    (h : (s.m_state ≠ NMEA0183_ACCEPT → s.m_index ≤ 81) ∧ s.m_index ≤ 82) :
    ((run s calls).m_state ≠ NMEA0183_ACCEPT → (run s calls).m_index ≤ 81) ∧
      (run s calls).m_index ≤ 82 := by
  induction calls generalizing s with
  | nil => exact h
  | cons k ks ih =>
    apply ih
    cases k with
    | update c =>
      have h1 := discard_index_le s h.1
      have h2 := classify_index_le (discard s) c
      exact store_index _ _ (by omega)
    | reset => simp [call, reset]

theorem run_length (calls : List Call) (s : NMEA0183) :
    (run s calls).m_sentence.length = s.m_sentence.length := by
  induction calls generalizing s with
  | nil => rfl
  | cons k ks ih =>
    rw [run, ih]
    cases k with
    | update c => exact update_length s c
    | reset => rfl

theorem accept_ending (s : NMEA0183) (w : Sentence) (e : List Nat)
    (hf : s.m_update_checksum = false) (hlen : s.m_sentence.length = SENTENCE_SIZE)
    (hw : w.WellFormed) (hl : w.wire.length ≤ 81) (he : isEnding e) :
    returns s (w.wire ++ e) =
      List.replicate w.wire.length false ++ true :: List.replicate (e.length - 1) false ∧
    (feed s (w.wire ++ e)).m_update_checksum = false ∧
    (feed s (w.wire ++ e)).m_sentence.length = SENTENCE_SIZE ∧
    getSentence (feed s (w.wire ++ e.take 1)) = some w.wire := by
  rcases he with rfl | rfl | rfl
  · obtain ⟨a1, _, a3, a4, a5⟩ := accept_wire s w 0x0D hf hlen hw hl (by decide)
    exact ⟨by simpa using a1, a3, a4, by simpa using a5⟩
  · obtain ⟨a1, _, a3, a4, a5⟩ := accept_wire s w 0x0A hf hlen hw hl (by decide)
    exact ⟨by simpa using a1, a3, a4, by simpa using a5⟩
  · obtain ⟨a1, a2, a3, a4, a5⟩ := accept_wire s w 0x0D hf hlen hw hl (by decide)
    obtain ⟨b1, b2⟩ := update_dead (feed s (w.wire ++ [0x0D])) 0x0A (Or.inr a2) (by decide)
    have hsplit : w.wire ++ [0x0D, 0x0A] = (w.wire ++ [0x0D]) ++ [0x0A] := by simp
    have hfe : feed s (w.wire ++ [0x0D, 0x0A]) =
        (update (feed s (w.wire ++ [0x0D])) 0x0A).1 := by
      rw [hsplit, feed_append]; rfl
    refine ⟨?_, by rw [hfe]; exact b2, by rw [hfe, update_length]; exact a4,
      by simpa using a5⟩
    rw [hsplit, returns_append, a1]
    rw [show returns (feed s (w.wire ++ [0x0D])) [0x0A] =
      [(update (feed s (w.wire ++ [0x0D])) 0x0A).2] from rfl, update_snd, b1]
    simp

set_option maxRecDepth 100000

/-! ## Escape states, accepted sentences and the capacity -/

theorem classify_no_hex (s : NMEA0183) (c : Nat)
    (h1 : s.m_state ≠ NMEA0183_FIELD_DATA_HEX_HI) (h2 : s.m_state ≠ NMEA0183_FIELD_DATA_HEX_LO) :
    (classify s c).1.m_state ≠ NMEA0183_FIELD_DATA_HEX_HI ∧
      (classify s c).1.m_state ≠ NMEA0183_FIELD_DATA_HEX_LO := by
  obtain ⟨st, f, buf, i, n, cs⟩ := s
  generalize hq : classify _ c = q
  cases st <;>
    simp only [classify, reset, reduceCtorEq, or_self, or_false, false_or, or_true, true_or,
      false_and, true_and, if_false, if_true] at hq <;>
    simp only [ne_eq, not_true_eq_false] at h1 h2 <;>
    split_ifs at hq <;> subst hq <;> simp

theorem update_no_hex (s : NMEA0183) (c : Nat)
    (h1 : s.m_state ≠ NMEA0183_FIELD_DATA_HEX_HI) (h2 : s.m_state ≠ NMEA0183_FIELD_DATA_HEX_LO) :
    (update s c).1.m_state ≠ NMEA0183_FIELD_DATA_HEX_HI ∧
      (update s c).1.m_state ≠ NMEA0183_FIELD_DATA_HEX_LO := by
  have hd : (discard s).m_state ≠ NMEA0183_FIELD_DATA_HEX_HI ∧
      (discard s).m_state ≠ NMEA0183_FIELD_DATA_HEX_LO := by
    by_cases ha : s.m_state = NMEA0183_ACCEPT
    · rw [((discard_state s).2.1 ha).1]; simp
    · rw [(discard_state s).2.2 ha]; exact ⟨h1, h2⟩
  have hc := classify_no_hex (discard s) c hd.1 hd.2
  rw [update_fst]
  rcases store_state (classify (discard s) c).1 (classify (discard s) c).2 with h | ⟨h, _⟩
  · rw [h]; simp
  · rw [h]; exact hc

theorem run_no_hex (calls : List Call) (s : NMEA0183)
    (h1 : s.m_state ≠ NMEA0183_FIELD_DATA_HEX_HI) (h2 : s.m_state ≠ NMEA0183_FIELD_DATA_HEX_LO) :
    (run s calls).m_state ≠ NMEA0183_FIELD_DATA_HEX_HI ∧
      (run s calls).m_state ≠ NMEA0183_FIELD_DATA_HEX_LO := by
  induction calls generalizing s with
  | nil => exact ⟨h1, h2⟩
  | cons k ks ih =>
    cases k with
    | update c => exact ih _ (update_no_hex s c h1 h2).1 (update_no_hex s c h1 h2).2
    | reset => exact ih _ (by simp [call, reset]) (by simp [call, reset])

theorem update_of_accept (s : NMEA0183) (c : Nat) (hs : s.m_state = NMEA0183_ACCEPT) :
    update s c = update (reset s) c := by
  have h1 : discard s = reset s := by simp [discard, hs]
  have h2 : discard (reset s) = reset s := by simp [discard, reset]
  simp only [update, h1, h2]

theorem inv_accept_length (inp : List Nat) (s : NMEA0183) (h : Inv inp s)
    (ha : s.m_state = NMEA0183_ACCEPT) :
    ∀ t, getSentence s = some t → t.length ≤ 81 := by
  obtain ⟨t0, term, heq, _, _, hget, _⟩ := inv_accept inp s h ha
  intro t ht
  rw [hget] at ht
  simp only [Option.some.injEq] at ht
  subst ht
  obtain ⟨_, hcase⟩ := h
  rcases hcase with h0 | ⟨_, hi1, _, hi3⟩
  · rw [ha] at h0; simp at h0
  · have := (hi3 ha).1
    rw [hi1, heq] at this
    simp at this
    omega

theorem overlong_rejected (s : NMEA0183) (w : Sentence) (t : Nat)
    (hf : s.m_update_checksum = false) (hlen : s.m_sentence.length = SENTENCE_SIZE)
    (hw : w.WellFormed) (hl : 82 ≤ w.wire.length) (ht : isTerminator t) :
    returns s (w.wire ++ [t]) = List.replicate (w.wire.length + 1) false := by
  obtain ⟨a1, a2, a3, a4, a5⟩ := update_start s w.start hw.1 hf
  have hr1 : (update s w.start).2 = false := by rw [update_false_iff, a1]; simp
  have ht1 : Track (update s w.start).1 NMEA0183_ADDRESS false [w.start] 0 := by
    refine ⟨by rw [update_length]; exact hlen, Or.inl ⟨by simp, a1, a2, by simp [a4], ?_, a3⟩⟩
    rw [a5]
    have := take_set_succ s.m_sentence 0 w.start (by rw [hlen]; simp [SENTENCE_SIZE])
    simpa using this
  obtain ⟨ht2, hr2⟩ := track_path (path_wire w hw) _ _ ht1
  have hwe := wire_eq w
  have hcur : [w.start] ++ (w.content ++ [0x2A] ++ w.digits) = w.wire := by rw [hwe]; simp
  rw [hcur] at ht2
  obtain ⟨_, hcase⟩ := ht2
  rcases hcase with ⟨hlt, _⟩ | ⟨_, b1, b2⟩
  · omega
  have hns : ¬ isStart t := by
    unfold isTerminator at ht; unfold isStart; omega
  obtain ⟨c1, _⟩ := update_dead _ t (Or.inl ⟨b1, b2⟩) hns
  have hc1 : (update (feed (update s w.start).1 (w.content ++ [0x2A] ++ w.digits)) t).2
      = false := by
    rw [update_false_iff, c1]; simp
  rw [hwe, List.cons_append]
  rw [show returns s (w.start :: (w.content ++ [0x2A] ++ w.digits ++ [t])) =
    (update s w.start).2 ::
      returns (update s w.start).1 (w.content ++ [0x2A] ++ w.digits ++ [t]) from rfl]
  rw [returns_append, hr1, hr2]
  rw [show returns (feed (update s w.start).1 (w.content ++ [0x2A] ++ w.digits)) [t] =
    [(update (feed (update s w.start).1 (w.content ++ [0x2A] ++ w.digits)) t).2] from rfl]
  rw [hc1, List.length_cons]
  have hrep : ∀ m : Nat, false :: (List.replicate m false ++ [false]) =
      List.replicate (m + 1 + 1) false := by
    intro m; rw [← List.replicate_succ']; rfl
  exact hrep _

/-! ## The decoder: splitting and conversion -/

theorem split_of_not_mem (sep : Char) (l : List Char) (h : sep ∉ l) : split sep l = [l] := by
  induction l with
  | nil => rfl
  | cons c cs ih =>
    have hc : c ≠ sep := fun e => h (by simp [e])
    have hcs : sep ∉ cs := fun e => h (by simp [e])
    simp [split, hc, ih hcs]

theorem split_append (sep : Char) (a b : List Char) (h : sep ∉ a) :
    split sep (a ++ sep :: b) = a :: split sep b := by
  induction a with
  | nil => simp [split]
  | cons c cs ih =>
    have hc : c ≠ sep := fun e => h (by simp [e])
    have hcs : sep ∉ cs := fun e => h (by simp [e])
    simp [split, hc, ih hcs]

theorem digit_ne_dot {c : Char} (h : c.isDigit = true) : c ≠ '.' := by
  intro e
  subst e
  exact absurd h (by decide)

theorem digits_no_dot {s : List Char} (h : ∀ c ∈ s, c.isDigit = true) : '.' ∉ s := by
  intro hmem
  exact digit_ne_dot (h _ hmem) rfl

theorem split_value (whole frac : List Char) (hw : ∀ c ∈ whole, c.isDigit = true)
    (hf : ∀ c ∈ frac, c.isDigit = true) :
    split '.' (whole ++ '.' :: frac) = [whole, frac] := by
  rw [split_append _ _ _ (digits_no_dot hw), split_of_not_mem _ _ (digits_no_dot hf)]

theorem takeMinutes_done (fuel : Nat) (minutes whole : List Char) (h : minutes.length = 2) :
    takeMinutes fuel minutes whole = (minutes, whole) := by
  cases fuel with
  | zero => rfl
  | succ n => simp [takeMinutes, h]

theorem takeMinutes_long (D : List Char) (m1 m2 : Char) (hD : D ≠ []) :
    takeMinutes (D ++ [m1, m2]).length [] (D ++ [m1, m2]) = ([m1, m2], D) := by
  have hlen : (D ++ [m1, m2]).length = D.length + 1 + 1 := by simp
  have hpos : 0 < D.length := List.length_pos.2 hD
  have e1 : D ++ [m1, m2] = (D ++ [m1]) ++ [m2] := by simp
  rw [hlen]
  simp only [takeMinutes]
  rw [if_pos (by simp), e1, List.getLast?_concat, List.dropLast_concat]
  simp only
  cases hn : D.length with
  | zero => omega
  | succ n =>
    simp only [takeMinutes]
    rw [if_pos (by simp [hn]), List.getLast?_concat, List.dropLast_concat]
    simp only
    simp

theorem takeMinutes_two (i1 i2 : Char) :
    takeMinutes [i1, i2].length [] [i1, i2] = ([i2], [i1]) := by
  simp [takeMinutes]

theorem dividorLoop_pow (n : Nat) (d : Int) (hd : 0 < d) (h : d * 10 ^ n ≤ 2147483647) :
    dividorLoop n d = some (d * 10 ^ n) := by
  induction n generalizing d with
  | zero => simp [dividorLoop]
  | succ n ih =>
    have e : d * 10 ^ (n + 1) = d * 10 * 10 ^ n := by ring
    have hp : (1 : Int) ≤ 10 ^ n := one_le_pow₀ (by norm_num)
    have hle : d * 10 ≤ d * 10 * 10 ^ n := by nlinarith
    rw [e] at h
    simp only [dividorLoop]
    rw [if_neg (by omega), ih (d * 10) (by omega) h, e]

theorem dividor_of_length (k : Nat) (h1 : 1 ≤ k) (h9 : k ≤ 9) :
    dividorLoop (k - 1) 10 = some (10 ^ k) := by
  have hk : k = (k - 1) + 1 := by omega
  have hle : (10 : Int) * 10 ^ (k - 1) ≤ 2147483647 := by
    have : (10 : Int) ^ (k - 1) ≤ 10 ^ 8 := pow_le_pow_right₀ (by norm_num) (by omega)
    norm_num at this ⊢
    omega
  rw [dividorLoop_pow (k - 1) 10 (by norm_num) hle]
  congr 1
  conv_rhs => rw [hk, pow_succ]
  ring

theorem readsDecimal_digitCast : ReadsDecimal digitCast := by
  intro s hs
  simp [digitCast, hs]

theorem to_double_long (lexical_cast : List Char → Option ℚ) (hlc : ReadsDecimal lexical_cast)
    (D : List Char) (m1 m2 : Char) (F h : List Char) (hD : isDigits D)
    (hm1 : m1.isDigit = true) (hm2 : m2.isDigit = true) (hF : isDigits F)
    (hk : F.length ≤ 9) :
    to_double lexical_cast (D ++ [m1, m2] ++ '.' :: F) h =
      some (if h = ['S'] ∨ h = ['W'] then
          ((decimalValue D : ℚ) + ((decimalValue [m1, m2] : ℚ) +
            (decimalValue F : ℚ) / 10 ^ F.length) / 60) * -1
        else
          (decimalValue D : ℚ) + ((decimalValue [m1, m2] : ℚ) +
            (decimalValue F : ℚ) / 10 ^ F.length) / 60) := by
  have hM : isDigits [m1, m2] := ⟨by simp, by simp [hm1, hm2]⟩
  have hI : ∀ c ∈ D ++ [m1, m2], c.isDigit = true := by
    intro c hc
    rcases List.mem_append.1 hc with h1 | h1
    · exact hD.2 c h1
    · exact hM.2 c h1
  have hk1 : 1 ≤ F.length := List.length_pos.2 hF.1
  unfold to_double
  rw [split_value _ _ hI hF.2]
  simp only [takeMinutes_long D m1 m2 hD.1, hlc D hD, hlc _ hM, hlc F hF,
    dividor_of_length F.length hk1 hk]
  split_ifs <;> simp

theorem to_double_short (lexical_cast : List Char → Option ℚ) (hlc : ReadsDecimal lexical_cast)
    (i1 i2 : Char) (F h : List Char) (h1 : i1.isDigit = true) (h2 : i2.isDigit = true)
    (hF : isDigits F) (hk : F.length ≤ 9) :
    to_double lexical_cast ([i1, i2] ++ '.' :: F) h =
      some (if h = ['S'] ∨ h = ['W'] then
          ((decimalValue [i1] : ℚ) + ((decimalValue [i2] : ℚ) +
            (decimalValue F : ℚ) / 10 ^ F.length) / 60) * -1
        else
          (decimalValue [i1] : ℚ) + ((decimalValue [i2] : ℚ) +
            (decimalValue F : ℚ) / 10 ^ F.length) / 60) := by
  have hI : ∀ c ∈ [i1, i2], c.isDigit = true := by simp [h1, h2]
  have hk1 : 1 ≤ F.length := List.length_pos.2 hF.1
  unfold to_double
  rw [split_value _ _ hI hF.2]
  simp only [takeMinutes_two, hlc [i1] ⟨by simp, by simp [h1]⟩,
    hlc [i2] ⟨by simp, by simp [h2]⟩, hlc F hF, dividor_of_length F.length hk1 hk]
  split_ifs <;> simp

theorem to_double_sign (lexical_cast : List Char → Option ℚ) (v : List Char) :
    ∃ b : Option ℚ, ∀ h : List Char,
      to_double lexical_cast v h =
        b.map (fun r => if h = ['S'] ∨ h = ['W'] then r * -1 else r) := by
  unfold to_double
  split
  · rename_i whole frac _
    simp only
    split
    · rename_i upper minutes decimals _ _ _
      split
      · rename_i dividor _
        exact ⟨some (upper + (minutes + decimals / dividor) / 60), fun h => by
          simp only [Option.map_some']; split_ifs <;> rfl⟩
      · exact ⟨none, fun _ => rfl⟩
    · exact ⟨none, fun _ => rfl⟩
  · exact ⟨some 0, fun h => by simp⟩

theorem list_of_length_13 (fs : List (List Char)) (h : fs.length = 13) :
    ∃ f0 f1 f2 f3 f4 f5 f6 f7 f8 f9 f10 f11 f12 : List Char,
      fs = [f0, f1, f2, f3, f4, f5, f6, f7, f8, f9, f10, f11, f12] := by
  rcases fs with _ | ⟨f0, fs⟩
  · simp at h
  rcases fs with _ | ⟨f1, fs⟩
  · simp at h
  rcases fs with _ | ⟨f2, fs⟩
  · simp at h
  rcases fs with _ | ⟨f3, fs⟩
  · simp at h
  rcases fs with _ | ⟨f4, fs⟩
  · simp at h
  rcases fs with _ | ⟨f5, fs⟩
  · simp at h
  rcases fs with _ | ⟨f6, fs⟩
  · simp at h
  rcases fs with _ | ⟨f7, fs⟩
  · simp at h
  rcases fs with _ | ⟨f8, fs⟩
  · simp at h
  rcases fs with _ | ⟨f9, fs⟩
  · simp at h
  rcases fs with _ | ⟨f10, fs⟩
  · simp at h
  rcases fs with _ | ⟨f11, fs⟩
  · simp at h
  rcases fs with _ | ⟨f12, fs⟩
  · simp at h
  rcases fs with _ | ⟨x, fs⟩
  · exact ⟨f0, f1, f2, f3, f4, f5, f6, f7, f8, f9, f10, f11, f12, rfl⟩
  · simp at h

theorem get_of_fields (lexical_cast : List Char → Option ℚ) (s : List Char) (p_lat p_long : ℚ)
    (fs : List (List Char)) (hs : split ',' s = fs) (h13 : fs.length = 13)
    (h0 : fs.head? = some "$GPRMC".toList) (h2 : fs.get? 2 = some ['A']) :
    get_gprmc_lat_long lexical_cast s p_lat p_long =
      (to_double lexical_cast (fs.getD 3 []) (fs.getD 4 [])).bind (fun lat =>
        (to_double lexical_cast (fs.getD 5 []) (fs.getD 6 [])).bind (fun long =>
          some (true, lat, long))) := by
  unfold get_gprmc_lat_long
  simp only [hs]
  have he : fs.isEmpty = false := by
    cases fs with
    | nil => simp at h13
    | cons a b => rfl
  rw [if_neg (by simp [he]), if_neg (fun hc => hc.elim (fun x => x h0) (fun x => x h13)),
    if_neg (fun hc => hc h2)]
  cases to_double lexical_cast (fs.getD 3 []) (fs.getD 4 []) with
  | none => rfl
  | some lat =>
    cases to_double lexical_cast (fs.getD 5 []) (fs.getD 6 []) with
    | none => rfl
    | some long => rfl

theorem get_true_inv (lexical_cast : List Char → Option ℚ) (s : List Char)
    (p_lat p_long la lo : ℚ)
    (h : get_gprmc_lat_long lexical_cast s p_lat p_long = some (true, la, lo)) :
    (split ',' s).length = 13 ∧ (split ',' s).head? = some "$GPRMC".toList ∧
    (split ',' s).get? 2 = some ['A'] ∧
    to_double lexical_cast ((split ',' s).getD 3 []) ((split ',' s).getD 4 []) = some la ∧
    to_double lexical_cast ((split ',' s).getD 5 []) ((split ',' s).getD 6 []) = some lo := by
  unfold get_gprmc_lat_long at h
  simp only at h
  split_ifs at h with h1 h2 h3
  · simp at h
  · simp at h
  · simp at h
  · have h13 : (split ',' s).length = 13 := by
      by_contra hc; exact h2 (Or.inr hc)
    have h0 : (split ',' s).head? = some "$GPRMC".toList := by
      by_contra hc; exact h2 (Or.inl hc)
    have h2' : (split ',' s).get? 2 = some ['A'] := by
      by_contra hc; exact h3 hc
    refine ⟨h13, h0, h2', ?_⟩
    split at h
    · simp at h
    · rename_i lat hlat
      split at h
      · simp at h
      · rename_i long hlong
        simp only [Option.some.injEq, Prod.mk.injEq, true_and] at h
        rw [hlat, hlong, h.1, h.2]
        exact ⟨rfl, rfl⟩

theorem to_double_reference (lexical_cast : List Char → Option ℚ)
    (hlc : ReadsDecimal lexical_cast) :
    to_double lexical_cast "4807.038".toList ['N'] = some (48 + (7 + 38 / 1000) / 60) ∧
    to_double lexical_cast "01131.000".toList ['E'] = some (11 + 31 / 60) := by
  have e1 : "4807.038".toList = ['4', '8'] ++ ['0', '7'] ++ '.' :: ['0', '3', '8'] := by decide
  have e2 : "01131.000".toList = ['0', '1', '1'] ++ ['3', '1'] ++ '.' :: ['0', '0', '0'] := by
    decide
  have v1 : decimalValue ['4', '8'] = 48 := by decide
  have v2 : decimalValue ['0', '7'] = 7 := by decide
  have v3 : decimalValue ['0', '3', '8'] = 38 := by decide
  have v4 : decimalValue ['0', '1', '1'] = 11 := by decide
  have v5 : decimalValue ['3', '1'] = 31 := by decide
  have v6 : decimalValue ['0', '0', '0'] = 0 := by decide
  constructor
  · rw [e1, to_double_long lexical_cast hlc _ _ _ _ _ (by decide) (by decide) (by decide)
      (by decide) (by decide), if_neg (by decide), v1, v2, v3]
    norm_num
  · rw [e2, to_double_long lexical_cast hlc _ _ _ _ _ (by decide) (by decide) (by decide)
      (by decide) (by decide), if_neg (by decide), v4, v5, v6]
    norm_num

/-! ## The claims -/

/-- C1: completeness of `update`.  A well-formed sentence (start delimiter, non-empty
`[A-Z0-9]` address, fields of field bytes, `*`, the two uppercase hex digits of the XOR of
the bytes between the start delimiter and `*`), at most 81 bytes long through the second
digit and followed by CR or LF, fed to a fresh object: `update` returns false on every
byte before the terminator and true on the terminator, and the state is then
`NMEA0183_ACCEPT`. -/
theorem update_accepts_well_formed (w : Sentence) (t : Nat) (hw : w.WellFormed)
    (ht : isTerminator t) (hl : w.wire.length ≤ 81) :
    returns new (w.wire ++ [t]) = List.replicate w.wire.length false ++ [true] ∧
      getState (feed new (w.wire ++ [t])) = NMEA0183_ACCEPT := by
  have h := accept_wire new w t rfl (by simp [new]) hw hl ht
  exact ⟨h.1, h.2.1⟩

/-- Witness of C1: the sentence `$GPRMC,A,B*48` followed by CR. -/
theorem update_accepts_well_formed_witness :
    (Sentence.mk 0x24 (bytes "GPRMC") [bytes "A", bytes "B"]).wire = bytes "$GPRMC,A,B*48" ∧
    returns new ((Sentence.mk 0x24 (bytes "GPRMC") [bytes "A", bytes "B"]).wire ++ [0x0D]) =
      List.replicate (Sentence.mk 0x24 (bytes "GPRMC") [bytes "A", bytes "B"]).wire.length false
        ++ [true] ∧
    getState (feed new ((Sentence.mk 0x24 (bytes "GPRMC") [bytes "A", bytes "B"]).wire
      ++ [0x0D])) = NMEA0183_ACCEPT :=
  ⟨by decide,
    update_accepts_well_formed (Sentence.mk 0x24 (bytes "GPRMC") [bytes "A", bytes "B"]) 0x0D
      (by decide) (by decide) (by decide)⟩

/-- C2 (defect): after the unfinished sentence `$G`, the sentence `$GPRMC,A,B*6C` is
accepted, although the XOR of `GPRMC,A,B` is `0x48` and its hex digits are `48`: the
start delimiter was added to the checksum because `m_update_checksum` was still on. -/
theorem checksum_unsound_after_restart :
    returns new (bytes "$G$GPRMC,A,B*6C\r") = List.replicate 15 false ++ [true] ∧
    getSentence (feed new (bytes "$G$GPRMC,A,B*6C\r")) = some (bytes "$GPRMC,A,B*6C") ∧
    xorAll (bytes "GPRMC,A,B") = 0x48 ∧
    [upperHexDigit (0x48 / 16), upperHexDigit (0x48 % 16)] = bytes "48" ∧
    bytes "48" ≠ bytes "6C" := by
  decide

/-- C3: a checksum mismatch is rejected.  A well-formed sentence body (start delimiter,
non-empty address, fields, `*`) fed to a fresh object and followed by two bytes that are
not both the correct uppercase hex digits, then CR and LF: `update` returns false on every
byte and the final state is `NMEA0183_INVALID`. -/
theorem checksum_mismatch_rejected (w : Sentence) (h l : Nat) (hw : w.WellFormed)
    (hh : isByte h) (hl : isByte l) (hne : [h, l] ≠ w.digits) :
    returns new (w.body ++ [h, l, 0x0D, 0x0A]) = List.replicate (w.body.length + 4) false ∧
      getState (feed new (w.body ++ [h, l, 0x0D, 0x0A])) = NMEA0183_INVALID := by
  obtain ⟨ht, hr⟩ := feed_body new w rfl (by simp [new]) hw
  have hinv := inv_of_bytes w.body (body_bytes w hw)
  obtain ⟨hc1, hc2⟩ := to_hex_checksum w.checksum (checksum_eq w hw).2
  have hs : ((feed new w.body).m_state = NMEA0183_CHECKSUM_HI ∧
      (feed new w.body).m_update_checksum = false ∧
      (feed new w.body).m_checksum = w.checksum) ∨
      (feed new w.body).m_state = NMEA0183_INVALID := by
    rcases ht.2 with ⟨_, a, b, _, _, c⟩ | ⟨_, a, _⟩
    · exact Or.inl ⟨a, b, c⟩
    · exact Or.inr a
  obtain ⟨k1, k2⟩ := mismatch_tail w.body _ w.checksum h l hinv hs hh hl
    (by rw [hc1, hc2]; exact hne)
  constructor
  · rw [returns_append, hr, k1]
    simp [List.replicate_add]
  · rw [feed_append]; exact k2

/-- Witness of C3: `$GPRMC,A,B*` followed by `58` (one bit of `4` flipped), CR and LF. -/
theorem checksum_mismatch_rejected_witness :
    (Sentence.mk 0x24 (bytes "GPRMC") [bytes "A", bytes "B"]).body ++ [0x35, 0x38, 0x0D, 0x0A]
      = bytes "$GPRMC,A,B*58\r\n" ∧
    returns new ((Sentence.mk 0x24 (bytes "GPRMC") [bytes "A", bytes "B"]).body ++
        [0x35, 0x38, 0x0D, 0x0A]) =
      List.replicate ((Sentence.mk 0x24 (bytes "GPRMC") [bytes "A", bytes "B"]).body.length + 4)
        false ∧
    getState (feed new ((Sentence.mk 0x24 (bytes "GPRMC") [bytes "A", bytes "B"]).body ++
        [0x35, 0x38, 0x0D, 0x0A])) = NMEA0183_INVALID :=
  ⟨by decide,
    checksum_mismatch_rejected (Sentence.mk 0x24 (bytes "GPRMC") [bytes "A", bytes "B"])
      0x35 0x38 (by decide) (by decide) (by decide) (by decide)⟩

/-- C4: buffer bound.  After any sequence of `update` and `reset` calls on a fresh object,
every write `m_sentence[m_index] = c` that a further `update` performs is at an index
below the capacity 83 of a buffer that still has 83 bytes, and `m_index` is at most 82
before and after that `update`. -/
theorem buffer_bound (calls : List Call) (c : Nat) :
    (∀ i, writeIndex (run new calls) c = some i → i < SENTENCE_SIZE) ∧
    (run new calls).m_sentence.length = SENTENCE_SIZE ∧
    (run new calls).m_index ≤ 82 ∧ (update (run new calls) c).1.m_index ≤ 82 := by
  have h := run_index calls new ⟨fun _ => by simp [new], by simp [new]⟩
  have h1 := discard_index_le _ h.1
  have h2 := classify_index_le (discard (run new calls)) c
  refine ⟨?_, by rw [run_length]; simp [new], h.2, ?_⟩
  · intro i hi
    unfold writeIndex at hi
    simp only at hi
    split_ifs at hi
    simp only [Option.some.injEq] at hi
    simp only [SENTENCE_SIZE]
    omega
  · rw [update_fst]
    exact (store_index _ _ (by omega)).2

/-- C5 (defect): after the unfinished sentence `$GP`, the well-formed sentence
`$GPRMC,A,B*48` with its terminator is not accepted: `update` returns false on every byte
and the object ends in `NMEA0183_INVALID`. -/
theorem no_resynchronisation_after_unfinished :
    (Sentence.mk 0x24 (bytes "GPRMC") [bytes "A", bytes "B"]).WellFormed ∧
    (Sentence.mk 0x24 (bytes "GPRMC") [bytes "A", bytes "B"]).wire = bytes "$GPRMC,A,B*48" ∧
    returns (feed new (bytes "$GP")) (bytes "$GPRMC,A,B*48\r") = List.replicate 14 false ∧
    getState (feed new (bytes "$GP" ++ bytes "$GPRMC,A,B*48\r")) = NMEA0183_INVALID ∧
    getSentence (feed new (bytes "$GP" ++ bytes "$GPRMC,A,B*48\r")) = none := by
  decide

/-- C6: back-to-back sentences are independent.  Two well-formed sentences with correct
checksums, each at most 81 bytes long and ended by CR, LF or CR LF, fed one after the other
to a fresh object: `update` returns true exactly twice, on the first terminator byte of
each sentence, and the sentence held after the second acceptance is the one a fresh object
holds when fed the second sentence alone, namely that sentence through its second
checksum digit. -/
theorem back_to_back_sentences (w1 w2 : Sentence) (e1 e2 : List Nat)
    (hw1 : w1.WellFormed) (hw2 : w2.WellFormed) (hl1 : w1.wire.length ≤ 81)
    (hl2 : w2.wire.length ≤ 81) (he1 : isEnding e1) (he2 : isEnding e2) :
    returns new ((w1.wire ++ e1) ++ (w2.wire ++ e2)) =
      (List.replicate w1.wire.length false ++ true :: List.replicate (e1.length - 1) false) ++
      (List.replicate w2.wire.length false ++ true :: List.replicate (e2.length - 1) false) ∧
    getSentence (feed new ((w1.wire ++ e1) ++ (w2.wire ++ e2.take 1))) =
      getSentence (feed new (w2.wire ++ e2.take 1)) ∧
    getSentence (feed new (w2.wire ++ e2.take 1)) = some w2.wire := by
  obtain ⟨a1, a2, a3, _⟩ := accept_ending new w1 e1 rfl (by simp [new]) hw1 hl1 he1
  obtain ⟨b1, _, _, b4⟩ := accept_ending (feed new (w1.wire ++ e1)) w2 e2 a2 a3 hw2 hl2 he2
  obtain ⟨_, _, _, c4⟩ := accept_ending new w2 e2 rfl (by simp [new]) hw2 hl2 he2
  refine ⟨by rw [returns_append, a1, b1], ?_, c4⟩
  rw [feed_append, b4, c4]

/-- Witness of C6: `$GPRMC,A,B*48` CR LF followed by `!AIVDM,1*4A` LF. -/
theorem back_to_back_sentences_witness :
    (Sentence.mk 0x24 (bytes "GPRMC") [bytes "A", bytes "B"]).wire ++ [0x0D, 0x0A] ++
        ((Sentence.mk 0x21 (bytes "AIVDM") [bytes "1"]).wire ++ [0x0A]) =
      bytes "$GPRMC,A,B*48\r\n!AIVDM,1*4A\n" ∧
    returns new (((Sentence.mk 0x24 (bytes "GPRMC") [bytes "A", bytes "B"]).wire ++
        [0x0D, 0x0A]) ++ ((Sentence.mk 0x21 (bytes "AIVDM") [bytes "1"]).wire ++ [0x0A])) =
      (List.replicate (Sentence.mk 0x24 (bytes "GPRMC") [bytes "A", bytes "B"]).wire.length
          false ++ true :: List.replicate ([0x0D, 0x0A].length - 1) false) ++
      (List.replicate (Sentence.mk 0x21 (bytes "AIVDM") [bytes "1"]).wire.length false ++
          true :: List.replicate ([0x0A].length - 1) false) ∧
    getSentence (feed new (((Sentence.mk 0x24 (bytes "GPRMC") [bytes "A", bytes "B"]).wire ++
        [0x0D, 0x0A]) ++
        ((Sentence.mk 0x21 (bytes "AIVDM") [bytes "1"]).wire ++ [0x0A].take 1))) =
      getSentence (feed new ((Sentence.mk 0x21 (bytes "AIVDM") [bytes "1"]).wire ++
        [0x0A].take 1)) ∧
    getSentence (feed new ((Sentence.mk 0x21 (bytes "AIVDM") [bytes "1"]).wire ++
        [0x0A].take 1)) = some (Sentence.mk 0x21 (bytes "AIVDM") [bytes "1"]).wire :=
  ⟨by decide,
    back_to_back_sentences (Sentence.mk 0x24 (bytes "GPRMC") [bytes "A", bytes "B"])
      (Sentence.mk 0x21 (bytes "AIVDM") [bytes "1"]) [0x0D, 0x0A] [0x0A]
      (by decide) (by decide) (by decide) (by decide) (by decide) (by decide)⟩

/-- C7 (defect): the sentence accepted from the input `$G$GPRMC,A,B*6C` CR is
`$GPRMC,A,B*6C`; fed with a terminator to a fresh object it is rejected. -/
theorem round_trip_fails_after_restart :
    (update (feed new (bytes "$G$GPRMC,A,B*6C")) 0x0D).2 = true ∧
    getSentence (update (feed new (bytes "$G$GPRMC,A,B*6C")) 0x0D).1 =
      some (bytes "$GPRMC,A,B*6C") ∧
    returns new (bytes "$GPRMC,A,B*6C" ++ [0x0D]) = List.replicate 14 false ∧
    getSentence (feed new (bytes "$GPRMC,A,B*6C" ++ [0x0D])) = none := by
  decide

/-- Counterexample to C8: the sentence accepted from `$GPRMC,A,B*48` CR holds the
checksum delimiter `*` and the two checksum digits. -/
theorem accepted_sentence_holds_checksum :
    (update (feed new (bytes "$GPRMC,A,B*48")) 0x0D).2 = true ∧
    getSentence (update (feed new (bytes "$GPRMC,A,B*48")) 0x0D).1 =
      some (bytes "$GPRMC,A,B*48") ∧
    0x2A ∈ bytes "$GPRMC,A,B*48" := by
  decide

/-- C8, amended: whenever `update` returns true on a byte of a byte sequence fed to a
fresh object, `getSentence` returns a string that begins with `$` or `!`, continues with
the validated address, comma and field bytes, then holds `*`, two uppercase hex digits and
possibly further field bytes; all its bytes are printable, so it holds no CR, LF or NUL. -/
theorem accepted_sentence_text (inp : List Nat) (c : Nat) (hb : ∀ b ∈ inp, isByte b)
    (hc : isByte c) (h : (update (feed new inp) c).2 = true) :
    ∃ t, getSentence (update (feed new inp) c).1 = some t ∧ SentenceText t ∧
      (∃ d rest, t = d :: rest ∧ isStart d) ∧
      ∀ b ∈ t, 0x20 ≤ b ∧ b ≤ 0x7E ∧ b ≠ 0x0D ∧ b ≠ 0x0A := by
  have hinv := inv_update inp _ c hc (inv_of_bytes inp hb)
  have hacc : (update (feed new inp) c).1.m_state = NMEA0183_ACCEPT := by
    rw [update_snd] at h; simpa using h
  obtain ⟨t, term, _, htext, _, hget, _⟩ := inv_accept _ _ hinv hacc
  refine ⟨t, hget, htext, ?_, ?_⟩
  · obtain ⟨d, addr, fields, hi, lo, trail, rfl, hd, _⟩ := htext
    exact ⟨d, _, rfl, hd⟩
  · intro b hb
    have := sentenceText_printable htext b hb
    omega

/-- Witness of the amended C8: the input `$GPRMC,A,B*48` and the byte CR. -/
theorem accepted_sentence_text_witness :
    ∃ t, getSentence (update (feed new (bytes "$GPRMC,A,B*48")) 0x0D).1 = some t ∧
      SentenceText t ∧ (∃ d rest, t = d :: rest ∧ isStart d) ∧
      ∀ b ∈ t, 0x20 ≤ b ∧ b ≤ 0x7E ∧ b ≠ 0x0D ∧ b ≠ 0x0A :=
  accepted_sentence_text (bytes "$GPRMC,A,B*48") 0x0D (by decide) (by decide) (by decide)

/-- Counterexample to C9: `$*00` CR is accepted, with an empty address. -/
theorem accepts_empty_address :
    (update (feed new (bytes "$*00")) 0x0D).2 = true ∧
    ¬ WireFormat (sinceStart (bytes "$*00" ++ [0x0D])) := by
  refine ⟨by decide, ?_⟩
  rintro ⟨d, addr, fields, hi, lo, t, heq, _, hne, haddr, _⟩
  have hs : sinceStart (bytes "$*00" ++ [0x0D]) = [0x24, 0x2A, 0x30, 0x30, 0x0D] := by decide
  rw [hs] at heq
  cases addr with
  | nil => exact hne rfl
  | cons a addr =>
    simp only [List.cons_append, List.cons.injEq] at heq
    have h1 := haddr a (by simp)
    have h2 : a = 0x2A := heq.2.1.symm
    rw [h2] at h1
    revert h1
    decide

/-- C9, amended: whenever `update` returns true on a byte of a byte sequence fed to a
fresh object, the input bytes from the most recent start delimiter through that byte
match `('$'|'!') ADDRESS (',' FIELD)* '*' HEXHI HEXLO FIELD (CR|LF)`, where ADDRESS is
zero or more bytes of `[A-Z0-9]`, FIELD is zero or more field bytes and HEXHI, HEXLO are
uppercase hex digits. -/
theorem update_true_wire_format (inp : List Nat) (c : Nat) (hb : ∀ b ∈ inp, isByte b)
    (hc : isByte c) (h : (update (feed new inp) c).2 = true) :
    WireFormatLoose (sinceStart (inp ++ [c])) := by
  have hinv := inv_update inp _ c hc (inv_of_bytes inp hb)
  have hacc : (update (feed new inp) c).1.m_state = NMEA0183_ACCEPT := by
    rw [update_snd] at h; simpa using h
  obtain ⟨_, _, _, _, _, _, hw⟩ := inv_accept _ _ hinv hacc
  exact hw

/-- Witness of the amended C9: the input `$*00X` and the byte LF. -/
theorem update_true_wire_format_witness :
    WireFormatLoose (sinceStart (bytes "$*00X" ++ [0x0A])) :=
  update_true_wire_format (bytes "$*00X") 0x0A (by decide) (by decide) (by decide)

/-- C10: rejection conditions of the decoder.  Whenever the sentence does not split on
`,` into exactly 13 fields, or field 0 is not `$GPRMC`, or field 2 is not `A`,
`get_gprmc_lat_long` returns false and leaves `p_lat` and `p_long` as they were. -/
theorem get_gprmc_lat_long_rejects (lexical_cast : List Char → Option ℚ)
    (p_nmea_sentence : List Char) (p_lat p_long : ℚ)
    (h : (split ',' p_nmea_sentence).length ≠ 13 ∨
      (split ',' p_nmea_sentence).head? ≠ some "$GPRMC".toList ∨
      (split ',' p_nmea_sentence).get? 2 ≠ some ['A']) :
    get_gprmc_lat_long lexical_cast p_nmea_sentence p_lat p_long =
      some (false, p_lat, p_long) := by
  unfold get_gprmc_lat_long
  simp only
  split_ifs with h1 h2 h3
  · rfl
  · rfl
  · rfl
  · exfalso
    rcases h with h | h | h
    · exact h2 (Or.inr h)
    · exact h2 (Or.inl h)
    · exact h3 h

/-- Witness of C10: a sentence of 13 fields whose status field is `V`. -/
theorem get_gprmc_lat_long_rejects_witness :
    (split ',' "$GPRMC,123519,V,4807.038,N,01131.000,E,022.4,084.4,230394,003.1,W,A*6A".toList).get?
        2 ≠ some ['A'] ∧
    get_gprmc_lat_long (fun _ => none)
        "$GPRMC,123519,V,4807.038,N,01131.000,E,022.4,084.4,230394,003.1,W,A*6A".toList 1 2 =
      some (false, 1, 2) :=
  ⟨by decide,
    get_gprmc_lat_long_rejects (fun _ => none)
      "$GPRMC,123519,V,4807.038,N,01131.000,E,022.4,084.4,230394,003.1,W,A*6A".toList 1 2
      (Or.inr (Or.inr (by decide)))⟩

/-- Counterexample to C11: the reference sentence has 12 fields and the decoder returns
false on it, leaving `p_lat` and `p_long` as they were. -/
theorem reference_sentence_rejected :
    (split ','
      "$GPRMC,123519,A,4807.038,N,01131.000,E,022.4,084.4,230394,003.1,W*6A".toList).length
      = 12 ∧
    get_gprmc_lat_long digitCast
      "$GPRMC,123519,A,4807.038,N,01131.000,E,022.4,084.4,230394,003.1,W*6A".toList 0 0 =
      some (false, 0, 0) := by
  have hs : (split ','
      "$GPRMC,123519,A,4807.038,N,01131.000,E,022.4,084.4,230394,003.1,W*6A".toList).length
      = 12 := by decide
  refine ⟨hs, ?_⟩
  unfold get_gprmc_lat_long
  simp only
  rw [if_neg (by decide), if_pos (Or.inr (by rw [hs]; decide))]

/-- C11, amended: the reference sentence as written has 12 fields, so
`get_gprmc_lat_long` returns false on it and leaves `p_lat` and `p_long` as they were; on
the same sentence with a thirteenth field, `...,003.1,W,A*6A`, it returns true with
`p_lat = 48 + 7.038/60` and `p_long = 11 + 31/60` in exact arithmetic, both positive and
within `1e-4` of 48.1173 and 11.5166667. -/
theorem reference_example (lexical_cast : List Char → Option ℚ)
    (hlc : ReadsDecimal lexical_cast) (p_lat p_long : ℚ) :
    get_gprmc_lat_long lexical_cast
      "$GPRMC,123519,A,4807.038,N,01131.000,E,022.4,084.4,230394,003.1,W*6A".toList
      p_lat p_long = some (false, p_lat, p_long) ∧
    get_gprmc_lat_long lexical_cast
      "$GPRMC,123519,A,4807.038,N,01131.000,E,022.4,084.4,230394,003.1,W,A*6A".toList
      p_lat p_long = some (true, 48 + (7 + 38 / 1000) / 60, 11 + 31 / 60) ∧
    (0 : ℚ) < 48 + (7 + 38 / 1000) / 60 ∧ (0 : ℚ) < 11 + 31 / 60 ∧
    |(48 + (7 + 38 / 1000) / 60 : ℚ) - 481173 / 10000| ≤ 1 / 10000 ∧
    |(11 + 31 / 60 : ℚ) - 115166667 / 10000000| ≤ 1 / 10000 := by
  have hs12 : (split ','
      "$GPRMC,123519,A,4807.038,N,01131.000,E,022.4,084.4,230394,003.1,W*6A".toList).length
      = 12 := by decide
  have hs13 : split ','
      "$GPRMC,123519,A,4807.038,N,01131.000,E,022.4,084.4,230394,003.1,W,A*6A".toList =
      ["$GPRMC".toList, "123519".toList, ['A'], "4807.038".toList, ['N'],
        "01131.000".toList, ['E'], "022.4".toList, "084.4".toList, "230394".toList,
        "003.1".toList, ['W'], "A*6A".toList] := by decide
  obtain ⟨r1, r2⟩ := to_double_reference lexical_cast hlc
  refine ⟨?_, ?_, by norm_num, by norm_num, ?_, ?_⟩
  · unfold get_gprmc_lat_long
    simp only
    rw [if_neg (by decide), if_pos (Or.inr (by rw [hs12]; decide))]
  · rw [get_of_fields lexical_cast _ p_lat p_long _ hs13 (by decide) (by decide) (by decide)]
    simp only [List.getD_cons_succ, List.getD_cons_zero, r1, r2, Option.some_bind]
  · rw [abs_le]; constructor <;> norm_num
  · rw [abs_le]; constructor <;> norm_num

/-- Witness of the amended C11: the reading `digitCast` of `lexical_cast`. -/
theorem reference_example_witness :
    get_gprmc_lat_long digitCast
      "$GPRMC,123519,A,4807.038,N,01131.000,E,022.4,084.4,230394,003.1,W,A*6A".toList
      0 0 = some (true, 48 + (7 + 38 / 1000) / 60, 11 + 31 / 60) :=
  (reference_example digitCast readsDecimal_digitCast 0 0).2.1

/-- C12 (defect): a sentence of 13 fields with field 0 `$GPRMC`, field 2 `A` and the
latitude value `4807038`, which has no decimal point and splits on `.` into one part:
called with `p_lat = 1` and `p_long = 2`, `get_gprmc_lat_long` returns true and sets
`p_lat` to 0 and `p_long` to `11 + 31/60`. -/
theorem malformed_latitude_accepted :
    (split ','
      "$GPRMC,123519,A,4807038,N,01131.000,E,022.4,084.4,230394,003.1,W,A*6A".toList).length
      = 13 ∧
    (split ','
      "$GPRMC,123519,A,4807038,N,01131.000,E,022.4,084.4,230394,003.1,W,A*6A".toList).get? 0
      = some "$GPRMC".toList ∧
    (split ','
      "$GPRMC,123519,A,4807038,N,01131.000,E,022.4,084.4,230394,003.1,W,A*6A".toList).get? 2
      = some ['A'] ∧
    (split ','
      "$GPRMC,123519,A,4807038,N,01131.000,E,022.4,084.4,230394,003.1,W,A*6A".toList).get? 3
      = some "4807038".toList ∧
    (split '.' "4807038".toList).length = 1 ∧
    get_gprmc_lat_long digitCast
      "$GPRMC,123519,A,4807038,N,01131.000,E,022.4,084.4,230394,003.1,W,A*6A".toList 1 2 =
      some (true, 0, 11 + 31 / 60) := by
  have hs13 : split ','
      "$GPRMC,123519,A,4807038,N,01131.000,E,022.4,084.4,230394,003.1,W,A*6A".toList =
      ["$GPRMC".toList, "123519".toList, ['A'], "4807038".toList, ['N'],
        "01131.000".toList, ['E'], "022.4".toList, "084.4".toList, "230394".toList,
        "003.1".toList, ['W'], "A*6A".toList] := by decide
  have hv : split '.' "4807038".toList = ["4807038".toList] := by decide
  have r1 : to_double digitCast "4807038".toList ['N'] = some 0 := by
    unfold to_double
    rw [hv]
  obtain ⟨_, r2⟩ := to_double_reference digitCast readsDecimal_digitCast
  refine ⟨by rw [hs13]; rfl, by rw [hs13]; rfl, by rw [hs13]; rfl, by rw [hs13]; rfl,
    by rw [hv]; rfl, ?_⟩
  rw [get_of_fields digitCast _ 1 2 _ hs13 (by decide) (by decide) (by decide)]
  simp only [List.getD_cons_succ, List.getD_cons_zero, r1, r2, Option.some_bind]

/-- C13: hemisphere sign rule.  For every value string on which `to_double` succeeds with
a hemisphere other than `S` and `W`, the results with `S` and with `W` are the negation of
that result; and when a sentence is decoded with hemisphere fields other than `S` and `W`,
the sentence whose fields 4 and 6 are changed to `S` and `W` is decoded too, with both
coordinates negated. -/
theorem hemisphere_sign_rule (lexical_cast : List Char → Option ℚ) (v h : List Char) (r : ℚ)
    (s s1 : List Char) (p_lat p_long la lo : ℚ) (hh : h ≠ ['S'] ∧ h ≠ ['W']) :
    (to_double lexical_cast v h = some r →
      to_double lexical_cast v ['S'] = some (-r) ∧
      to_double lexical_cast v ['W'] = some (-r)) ∧
    (get_gprmc_lat_long lexical_cast s p_lat p_long = some (true, la, lo) →
      (split ',' s).getD 4 [] ≠ ['S'] ∧ (split ',' s).getD 4 [] ≠ ['W'] →
      (split ',' s).getD 6 [] ≠ ['S'] ∧ (split ',' s).getD 6 [] ≠ ['W'] →
      split ',' s1 = ((split ',' s).set 4 ['S']).set 6 ['W'] →
      get_gprmc_lat_long lexical_cast s1 p_lat p_long = some (true, -la, -lo)) := by
  have key : ∀ (x g : List Char) (q : ℚ), g ≠ ['S'] ∧ g ≠ ['W'] →
      to_double lexical_cast x g = some q →
      to_double lexical_cast x ['S'] = some (-q) ∧
      to_double lexical_cast x ['W'] = some (-q) := by
    intro x g q hg hq
    obtain ⟨b, hb⟩ := to_double_sign lexical_cast x
    rw [hb g] at hq
    rw [hb ['S'], hb ['W']]
    cases b with
    | none => simp at hq
    | some y =>
      simp only [Option.map_some', Option.some.injEq] at hq
      rw [if_neg (by simp [hg.1, hg.2])] at hq
      subst hq
      simp
  refine ⟨key v h r hh, ?_⟩
  intro hget h4 h6 hs1
  obtain ⟨k13, k0, k2, klat, klong⟩ := get_true_inv lexical_cast s p_lat p_long la lo hget
  obtain ⟨f0, f1, f2, f3, f4, f5, f6, f7, f8, f9, f10, f11, f12, hfs⟩ :=
    list_of_length_13 _ k13
  rw [hfs] at k0 k2 klat klong h4 h6 hs1
  simp only [List.getD_cons_succ, List.getD_cons_zero] at klat klong h4 h6
  simp only [List.set_cons_succ, List.set_cons_zero] at hs1
  rw [get_of_fields lexical_cast s1 p_lat p_long _ hs1 (by simp) (by simpa using k0)
    (by simpa using k2)]
  simp only [List.getD_cons_succ, List.getD_cons_zero, (key f3 f4 la h4 klat).1,
    (key f5 f6 lo h6 klong).2, Option.some_bind]

/-- Witness of C13: the value `4807.038`, and the 13-field sentence with `N` and `E`
changed to `S` and `W`, whose coordinates are the negated ones. -/
theorem hemisphere_sign_rule_witness :
    to_double digitCast "4807.038".toList ['N'] = some (48 + (7 + 38 / 1000) / 60) ∧
    to_double digitCast "4807.038".toList ['S'] = some (-(48 + (7 + 38 / 1000) / 60)) ∧
    to_double digitCast "4807.038".toList ['W'] = some (-(48 + (7 + 38 / 1000) / 60)) ∧
    get_gprmc_lat_long digitCast
      "$GPRMC,123519,A,4807.038,N,01131.000,E,022.4,084.4,230394,003.1,W,A*6A".toList 0 0 =
      some (true, 48 + (7 + 38 / 1000) / 60, 11 + 31 / 60) ∧
    get_gprmc_lat_long digitCast
      "$GPRMC,123519,A,4807.038,S,01131.000,W,022.4,084.4,230394,003.1,W,A*6A".toList 0 0 =
      some (true, -(48 + (7 + 38 / 1000) / 60), -(11 + 31 / 60)) := by
  have hs13 : split ','
      "$GPRMC,123519,A,4807.038,N,01131.000,E,022.4,084.4,230394,003.1,W,A*6A".toList =
      ["$GPRMC".toList, "123519".toList, ['A'], "4807.038".toList, ['N'],
        "01131.000".toList, ['E'], "022.4".toList, "084.4".toList, "230394".toList,
        "003.1".toList, ['W'], "A*6A".toList] := by decide
  obtain ⟨r1, r2⟩ := to_double_reference digitCast readsDecimal_digitCast
  have hget : get_gprmc_lat_long digitCast
      "$GPRMC,123519,A,4807.038,N,01131.000,E,022.4,084.4,230394,003.1,W,A*6A".toList 0 0 =
      some (true, 48 + (7 + 38 / 1000) / 60, 11 + 31 / 60) := by
    rw [get_of_fields digitCast _ 0 0 _ hs13 (by decide) (by decide) (by decide)]
    simp only [List.getD_cons_succ, List.getD_cons_zero, r1, r2, Option.some_bind]
  have w := hemisphere_sign_rule digitCast "4807.038".toList ['N'] (48 + (7 + 38 / 1000) / 60)
    "$GPRMC,123519,A,4807.038,N,01131.000,E,022.4,084.4,230394,003.1,W,A*6A".toList
    "$GPRMC,123519,A,4807.038,S,01131.000,W,022.4,084.4,230394,003.1,W,A*6A".toList
    0 0 (48 + (7 + 38 / 1000) / 60) (11 + 31 / 60) (by decide)
  exact ⟨r1, (w.1 r1).1, (w.1 r1).2, hget,
    w.2 hget (by rw [hs13]; decide) (by rw [hs13]; decide) (by decide)⟩

/-- C14: degrees/minutes conversion.  For a value `I.F` where `I` is a string of at least
3 decimal digits and `F` a string of 1 to 9 decimal digits, and a hemisphere other than
`S` and `W`, `to_double` returns `D + (M + F/10^k)/60`, where `M` is the number written by
the last two digits of `I`, `D` the number written by the digits before them and `k` the
length of `F`. -/
theorem degrees_minutes_conversion (lexical_cast : List Char → Option ℚ)
    (hlc : ReadsDecimal lexical_cast) (I F h : List Char) (hI : isDigits I)
    (hn : 3 ≤ I.length) (hF : isDigits F) (hk : F.length ≤ 9)
    (hh : h ≠ ['S'] ∧ h ≠ ['W']) :
    to_double lexical_cast (I ++ '.' :: F) h =
      some ((decimalValue (I.take (I.length - 2)) : ℚ) +
        ((decimalValue (I.drop (I.length - 2)) : ℚ) +
          (decimalValue F : ℚ) / 10 ^ F.length) / 60) := by
  have hsplit : I = I.take (I.length - 2) ++ I.drop (I.length - 2) :=
    (List.take_append_drop _ _).symm
  have hlen : (I.drop (I.length - 2)).length = 2 := by
    rw [List.length_drop]; omega
  obtain ⟨m1, m2, hM⟩ := List.length_eq_two.1 hlen
  have hD : isDigits (I.take (I.length - 2)) := by
    constructor
    · intro e
      have := congrArg List.length e
      rw [List.length_take] at this
      simp at this
      omega
    · intro c hc
      exact hI.2 c (List.mem_of_mem_take hc)
  have hm : ∀ c ∈ [m1, m2], c.isDigit = true := by
    intro c hc
    rw [← hM] at hc
    exact hI.2 c (List.mem_of_mem_drop hc)
  have h1 : to_double lexical_cast (I.take (I.length - 2) ++ [m1, m2] ++ '.' :: F) h = _ :=
    to_double_long lexical_cast hlc _ m1 m2 F h hD (hm m1 (by simp)) (hm m2 (by simp)) hF hk
  rw [if_neg (by simp [hh.1, hh.2]), ← hM, ← hsplit] at h1
  exact h1

/-- Witness of C14: the value `4807.038` with hemisphere `N`. -/
theorem degrees_minutes_conversion_witness :
    to_double digitCast ("4807".toList ++ '.' :: "038".toList) ['N'] =
      some ((decimalValue ("4807".toList.take ("4807".toList.length - 2)) : ℚ) +
        ((decimalValue ("4807".toList.drop ("4807".toList.length - 2)) : ℚ) +
          (decimalValue "038".toList : ℚ) / 10 ^ "038".toList.length) / 60) :=
  degrees_minutes_conversion digitCast readsDecimal_digitCast "4807".toList "038".toList ['N']
    (by decide) (by decide) (by decide) (by decide) (by decide)

/-- Counterexample to C15: for `47.038` the result is `4 + 7.038/60`, not `47.038/60`;
and for `7.5`, under the reading `digitCast`, the conversion throws on the empty minutes
string instead of succeeding. -/
theorem short_integer_part_splits :
    to_double digitCast "47.038".toList ['N'] = some (4 + (7 + 38 / 1000) / 60) ∧
    (4 + (7 + 38 / 1000) / 60 : ℚ) ≠ (47 + 38 / 1000) / 60 ∧
    takeMinutes 1 [] ['7'] = ([], ['7']) ∧
    to_double digitCast "7.5".toList ['N'] = none := by
  have e1 : "47.038".toList = ['4', '7'] ++ '.' :: ['0', '3', '8'] := by decide
  have v1 : decimalValue ['4'] = 4 := by decide
  have v2 : decimalValue ['7'] = 7 := by decide
  have v3 : decimalValue ['0', '3', '8'] = 38 := by decide
  refine ⟨?_, by norm_num, by decide, ?_⟩
  · rw [e1, to_double_short digitCast readsDecimal_digitCast _ _ _ _ (by decide) (by decide)
      (by decide) (by decide), if_neg (by decide), v1, v2, v3]
    norm_num
  · have hv : split '.' "7.5".toList = [['7'], ['5']] := by decide
    have ht : takeMinutes ['7'].length [] ['7'] = ([], ['7']) := by decide
    have hc : digitCast [] = none := by decide
    unfold to_double
    rw [hv]
    simp only [ht, hc]
    cases digitCast ['7'] <;> rfl

/-- C15, amended: for a value `I.F` where `I` has exactly two decimal digits and `F` has 1
to 9 decimal digits, and a hemisphere other than `S` and `W`, the loop moves one character
only: the first digit of `I` is the degrees and the second the whole minutes, and
`to_double` returns `i1 + (i2 + F/10^k)/60`. -/
theorem two_digit_integer_part (lexical_cast : List Char → Option ℚ)
    (hlc : ReadsDecimal lexical_cast) (i1 i2 : Char) (F h : List Char)
    (h1 : i1.isDigit = true) (h2 : i2.isDigit = true) (hF : isDigits F) (hk : F.length ≤ 9)
    (hh : h ≠ ['S'] ∧ h ≠ ['W']) :
    to_double lexical_cast ([i1, i2] ++ '.' :: F) h =
      some ((decimalValue [i1] : ℚ) +
        ((decimalValue [i2] : ℚ) + (decimalValue F : ℚ) / 10 ^ F.length) / 60) := by
  rw [to_double_short lexical_cast hlc i1 i2 F h h1 h2 hF hk, if_neg (by simp [hh.1, hh.2])]

/-- Witness of the amended C15: the value `47.038` with hemisphere `N`. -/
theorem two_digit_integer_part_witness :
    to_double digitCast (['4', '7'] ++ '.' :: "038".toList) ['N'] =
      some ((decimalValue ['4'] : ℚ) +
        ((decimalValue ['7'] : ℚ) + (decimalValue "038".toList : ℚ) /
          10 ^ "038".toList.length) / 60) :=
  two_digit_integer_part digitCast readsDecimal_digitCast '4' '7' "038".toList ['N']
    (by decide) (by decide) (by decide) (by decide) (by decide)

/-- Counterexample to C16: the well-formed sentence made of `$`, 78 times `A` and `*00`
is 82 bytes long and is not accepted: `update` returns false on each of its bytes and on
the terminator. -/
theorem sentence_of_82_bytes_rejected :
    (Sentence.mk 0x24 (List.replicate 78 0x41) []).WellFormed ∧
    (Sentence.mk 0x24 (List.replicate 78 0x41) []).wire.length = 82 ∧
    (Sentence.mk 0x24 (List.replicate 78 0x41) []).digits = bytes "00" ∧
    returns new ((Sentence.mk 0x24 (List.replicate 78 0x41) []).wire ++ [0x0D]) =
      List.replicate 83 false :=
  ⟨by decide, by decide, by decide,
    overlong_rejected new (Sentence.mk 0x24 (List.replicate 78 0x41) []) 0x0D rfl
      (by decide) (by decide) (by decide) (by decide)⟩

/-- C16, amended: the capacity limit is 81 stored bytes.  A well-formed sentence with
correct checksum whose stored content (start delimiter through second checksum digit) is
exactly 81 bytes long is accepted by a fresh object when its terminator is fed; one of 82
bytes or more is abandoned and `update` returns false on all its bytes and on the
terminator; and no accepted sentence is longer than 81 bytes. -/
theorem capacity_limit (w : Sentence) (t : Nat) (inp : List Nat) (c : Nat)
    (hw : w.WellFormed) (ht : isTerminator t) (hb : ∀ b ∈ inp, isByte b) (hc : isByte c) :
    (w.wire.length = 81 →
      returns new (w.wire ++ [t]) = List.replicate 81 false ++ [true] ∧
      getSentence (feed new (w.wire ++ [t])) = some w.wire) ∧
    (82 ≤ w.wire.length →
      returns new (w.wire ++ [t]) = List.replicate (w.wire.length + 1) false) ∧
    ((update (feed new inp) c).2 = true →
      ∀ x, getSentence (update (feed new inp) c).1 = some x → x.length ≤ 81) := by
  refine ⟨?_, ?_, ?_⟩
  · intro h81
    have h := accept_wire new w t rfl (by simp [new]) hw (by omega) ht
    rw [h81] at h
    exact ⟨h.1, h.2.2.2.2⟩
  · intro h82
    exact overlong_rejected new w t rfl (by simp [new]) hw h82 ht
  · intro h
    have hinv := inv_update inp _ c hc (inv_of_bytes inp hb)
    have hacc : (update (feed new inp) c).1.m_state = NMEA0183_ACCEPT := by
      rw [update_snd] at h; simpa using h
    exact inv_accept_length _ _ hinv hacc

/-- Witness of the amended C16: the 81-byte sentence made of `$`, 77 times `A` and `*41`
is accepted on its CR, and the sentence accepted from the input `$GPRMC,A,B*48` CR has at
most 81 bytes. -/
theorem capacity_limit_witness :
    (Sentence.mk 0x24 (List.replicate 77 0x41) []).WellFormed ∧
    (Sentence.mk 0x24 (List.replicate 77 0x41) []).wire.length = 81 ∧
    returns new ((Sentence.mk 0x24 (List.replicate 77 0x41) []).wire ++ [0x0D]) =
      List.replicate 81 false ++ [true] ∧
    getSentence (feed new ((Sentence.mk 0x24 (List.replicate 77 0x41) []).wire ++ [0x0D])) =
      some (Sentence.mk 0x24 (List.replicate 77 0x41) []).wire ∧
    (update (feed new (bytes "$GPRMC,A,B*48")) 0x0D).2 = true ∧
    ∀ x, getSentence (update (feed new (bytes "$GPRMC,A,B*48")) 0x0D).1 = some x →
      x.length ≤ 81 :=
  ⟨by decide, by decide,
    ((capacity_limit (Sentence.mk 0x24 (List.replicate 77 0x41) []) 0x0D
      (bytes "$GPRMC,A,B*48") 0x0D (by decide) (by decide) (by decide) (by decide)).1
        (by decide)).1,
    ((capacity_limit (Sentence.mk 0x24 (List.replicate 77 0x41) []) 0x0D
      (bytes "$GPRMC,A,B*48") 0x0D (by decide) (by decide) (by decide) (by decide)).1
        (by decide)).2,
    by decide,
    (capacity_limit (Sentence.mk 0x24 (List.replicate 77 0x41) []) 0x0D
      (bytes "$GPRMC,A,B*48") 0x0D (by decide) (by decide) (by decide) (by decide)).2.2
        (by decide)⟩

/-- C17 (defect): after the bytes `$G`, `update('$')` returns false and leaves the state
`NMEA0183_ADDRESS`, the field counter 0 and `m_index` 1 with the delimiter in the buffer,
but the checksum accumulator is `0x24`, not 0: the flag `m_update_checksum` was still on
and the delimiter was added to the checksum. -/
theorem start_delimiter_enters_checksum :
    (update (feed new (bytes "$G")) 0x24).2 = false ∧
    getState (update (feed new (bytes "$G")) 0x24).1 = NMEA0183_ADDRESS ∧
    getFields (update (feed new (bytes "$G")) 0x24).1 = 0 ∧
    (update (feed new (bytes "$G")) 0x24).1.m_index = 1 ∧
    (update (feed new (bytes "$G")) 0x24).1.m_sentence.take 1 = [0x24] ∧
    (update (feed new (bytes "$G")) 0x24).1.m_update_checksum = true ∧
    (update (feed new (bytes "$G")) 0x24).1.m_checksum = 0x24 := by
  decide

/-- C18: an accepted sentence is discarded by the next byte.  For every object in state
`NMEA0183_ACCEPT` and every byte `b`, `update(b)` returns false, the new state is
`NMEA0183_ADDRESS` when `b` is `$` or `!` and `NMEA0183_INVALID` otherwise, and
`getSentence` returns NULL; so `update` never returns true on two consecutive bytes, and
`getSentence` is non-NULL exactly in state `NMEA0183_ACCEPT`. -/
theorem accepted_sentence_discarded (s : NMEA0183) (b : Nat)
    (hs : getState s = NMEA0183_ACCEPT) :
    (update s b).2 = false ∧
    (getState (update s b).1 = NMEA0183_INVALID ∨ getState (update s b).1 = NMEA0183_ADDRESS) ∧
    (getState (update s b).1 = NMEA0183_ADDRESS ↔ isStart b) ∧
    getSentence (update s b).1 = none ∧
    (∀ (s0 : NMEA0183) (c1 c2 : Nat),
      (update s0 c1).2 = true → (update (update s0 c1).1 c2).2 = false) ∧
    (∀ s0 : NMEA0183, getSentence s0 ≠ none ↔ getState s0 = NMEA0183_ACCEPT) := by
  have key : ∀ (s1 : NMEA0183) (c : Nat), s1.m_state = NMEA0183_ACCEPT →
      ((update s1 c).1.m_state = NMEA0183_ADDRESS ∧ isStart c) ∨
      ((update s1 c).1.m_state = NMEA0183_INVALID ∧ ¬ isStart c) := by
    intro s1 c h1
    by_cases hc : isStart c
    · left
      rw [update_of_accept s1 c h1]
      exact ⟨(update_start (reset s1) c hc rfl).1, hc⟩
    · right
      exact ⟨(update_dead s1 c (Or.inr h1) hc).1, hc⟩
  have hget : ∀ s0 : NMEA0183, getSentence s0 ≠ none ↔ getState s0 = NMEA0183_ACCEPT := by
    intro s0
    unfold getSentence getState
    by_cases h0 : s0.m_state = NMEA0183_ACCEPT <;> simp [h0]
  have hfalse : ∀ (s1 : NMEA0183) (c : Nat), s1.m_state = NMEA0183_ACCEPT →
      (update s1 c).2 = false := by
    intro s1 c h1
    rw [update_false_iff]
    rcases key s1 c h1 with ⟨h, _⟩ | ⟨h, _⟩ <;> rw [h] <;> simp
  unfold getState at hs ⊢
  refine ⟨hfalse s b hs, ?_, ?_, ?_, ?_, hget⟩
  · rcases key s b hs with ⟨h, _⟩ | ⟨h, _⟩
    · exact Or.inr h
    · exact Or.inl h
  · rcases key s b hs with ⟨h, hb⟩ | ⟨h, hb⟩
    · exact ⟨fun _ => hb, fun _ => h⟩
    · exact ⟨fun h2 => by rw [h] at h2; simp at h2, fun h2 => absurd h2 hb⟩
  · unfold getSentence
    rcases key s b hs with ⟨h, _⟩ | ⟨h, _⟩ <;> rw [h] <;> simp
  · intro s0 c1 c2 h1
    apply hfalse
    rw [update_snd] at h1
    simpa using h1

/-- Witness of C18: the object that accepted `$GPRMC,A,B*48` CR, and the byte `X`. -/
theorem accepted_sentence_discarded_witness :
    getState (feed new (bytes "$GPRMC,A,B*48\r")) = NMEA0183_ACCEPT ∧
    (update (feed new (bytes "$GPRMC,A,B*48\r")) 0x58).2 = false ∧
    getSentence (update (feed new (bytes "$GPRMC,A,B*48\r")) 0x58).1 = none :=
  ⟨by decide,
    (accepted_sentence_discarded (feed new (bytes "$GPRMC,A,B*48\r")) 0x58 (by decide)).1,
    (accepted_sentence_discarded (feed new (bytes "$GPRMC,A,B*48\r")) 0x58 (by decide)).2.2.2.1⟩

/-- C19: the escape states are unreachable.  After any sequence of `update` and `reset`
calls on a fresh object the state is neither `NMEA0183_FIELD_DATA_HEX_HI` nor
`NMEA0183_FIELD_DATA_HEX_LO`. -/
theorem escape_states_unreachable (calls : List Call) :
    getState (run new calls) ≠ NMEA0183_FIELD_DATA_HEX_HI ∧
      getState (run new calls) ≠ NMEA0183_FIELD_DATA_HEX_LO :=
  run_no_hex calls new (by simp [new]) (by simp [new])

/-- C20: what an accepted sentence is.  Whenever `update` returns true on a byte of a byte
sequence fed to a fresh object, that byte is CR or LF and the string returned by
`getSentence` is exactly the input from the most recent `$` or `!` up to the byte just
before the terminator; it holds no NUL. -/
theorem accepted_sentence_is_input (inp : List Nat) (c : Nat) (hb : ∀ b ∈ inp, isByte b)
    (hc : isByte c) (h : (update (feed new inp) c).2 = true) :
    isTerminator c ∧
    getSentence (update (feed new inp) c).1 = some (sinceStart inp) ∧
    sinceStart (inp ++ [c]) = sinceStart inp ++ [c] ∧
    ∀ b ∈ sinceStart inp, b ≠ 0 := by
  have hinv := inv_update inp _ c hc (inv_of_bytes inp hb)
  have hacc : (update (feed new inp) c).1.m_state = NMEA0183_ACCEPT := by
    rw [update_snd] at h; simpa using h
  obtain ⟨t, term, heq, htext, hterm, hget, _⟩ := inv_accept _ _ hinv hacc
  have hne : t ≠ [] := by
    obtain ⟨d, addr, fields, hi, lo, trail, rfl, _⟩ := htext
    simp
  rw [sinceStart_snoc] at heq
  split_ifs at heq with h1 h2
  · -- a start delimiter cannot be the accepting byte
    exfalso
    have hlen : ([c] : List Nat).length = (t ++ [term]).length := congrArg List.length heq
    rw [List.length_append, List.length_singleton, List.length_singleton] at hlen
    exact hne (List.length_eq_zero.1 (by omega))
  · simp at heq
  · obtain ⟨e1, e2⟩ := List.append_inj' heq rfl
    simp only [List.cons.injEq, and_true] at e2
    subst e1 e2
    refine ⟨hterm, hget, ?_, ?_⟩
    · rw [sinceStart_snoc, if_neg h1, if_neg h2]
    · intro b hb0
      have := sentenceText_printable htext b hb0
      omega

/-- Witness of C20: the input `ab$G$GPRMC,A,B*6C` and the byte CR. -/
theorem accepted_sentence_is_input_witness :
    isTerminator 0x0D ∧
    getSentence (update (feed new (bytes "ab$G$GPRMC,A,B*6C")) 0x0D).1 =
      some (sinceStart (bytes "ab$G$GPRMC,A,B*6C")) ∧
    sinceStart (bytes "ab$G$GPRMC,A,B*6C" ++ [0x0D]) =
      sinceStart (bytes "ab$G$GPRMC,A,B*6C") ++ [0x0D] ∧
    ∀ b ∈ sinceStart (bytes "ab$G$GPRMC,A,B*6C"), b ≠ 0 :=
  accepted_sentence_is_input (bytes "ab$G$GPRMC,A,B*6C") 0x0D (by decide) (by decide)
    (by decide)

end Nmea
